import Mathlib

/-!
Shallow embedding of the `aerodrome-pool-tracker-v4` core in Lean 4:

* `pool_events_indexer.py` — the write path: SQLite-backed event store
  (`pool_liquidity_events`, `pool_swaps`, `pool_fee_claims`, `indexer_state`),
  checkpointed block-range scanning (`get_start_block`, `update_last_block`,
  `index_pool_events`, `main`).
* `pool_events_reader.py` — the read path: `get_token_decimals`,
  `get_recent_activity`, `get_liquidity_timeseries`,
  `get_swap_volume_timeseries`.

Modelling conventions:

* uint256 amounts are `Nat` (the Python code stores them as decimal strings
  and re-parses them with `int(...)`, which is lossless);
* the SQLite connection is a pair of a committed database and the pending
  (executed but uncommitted) writes of the open transaction; `conn.commit()`
  flushes the pending writes;
* the chain RPC is a `Chain` value: the head block number, a per-block
  timestamp lookup (`Option` — `none` models a raised RPC exception inside
  `get_block_timestamp`), and per-pool per-kind log streams; `get_logs`
  with a block range is the range filter over the stream;
* the volume query's float arithmetic is modelled faithfully inside `ℚ`:
  Python's `int / int` is the correctly rounded binary64 quotient, written
  `roundDouble` (round to nearest, ties to even, in the normal range — which
  contains every magnitude a uint256 amount over `10^decimals` can reach),
  and the pandas per-bucket `groupby(...).sum()` is the compensated binary64
  accumulation `kahanSum`;
* `datetime.utcnow()` is an explicit `now : Nat` parameter (UNIX seconds).
-/

/-- Python `str.lower()` (the addresses are ASCII, so it is the
character-wise lowercase map). -/
def pyLower (s : String) : String := ⟨s.data.map Char.toLower⟩

/-- A row of the `pool_liquidity_events` table. -/
structure LiqRow where
  pool_address : String
  event_type : String
  token0_amount : Nat
  token1_amount : Nat
  provider_address : String
  tx_hash : String
  block_number : Nat
  block_time : Nat
deriving DecidableEq, Repr

/-- A row of the `pool_swaps` table. -/
structure SwapRow where
  pool_address : String
  sender : String
  recipient : String
  amount0_in : Nat
  amount1_in : Nat
  amount0_out : Nat
  amount1_out : Nat
  tx_hash : String
  block_number : Nat
  block_time : Nat
deriving DecidableEq, Repr

/-- A row of the `pool_fee_claims` table. -/
structure ClaimRow where
  pool_address : String
  sender : String
  recipient : String
  token0_fee : Nat
  token1_fee : Nat
  tx_hash : String
  block_number : Nat
  block_time : Nat
deriving DecidableEq, Repr

/-- The committed contents of `pool_events.db`: the three append-only event
tables (in insertion order) and the single-row `indexer_state` checkpoint
(`none` when the row is absent). -/
structure DB where
  pool_liquidity_events : List LiqRow
  pool_swaps : List SwapRow
  pool_fee_claims : List ClaimRow
  indexer_state : Option Nat
deriving DecidableEq, Repr

/-- An open SQLite connection: the committed database plus the pending
writes of the currently open transaction (rows inserted by `cur.execute`
but not yet committed, and a pending `INSERT OR REPLACE` into
`indexer_state`). -/
structure Conn where
  db : DB
  pending_liq : List LiqRow
  pending_swaps : List SwapRow
  pending_claims : List ClaimRow
  pending_state : Option Nat
deriving DecidableEq, Repr

/-- `sqlite3.connect`: a fresh connection with no open transaction. -/
def Conn.connect (db : DB) : Conn :=
  { db := db, pending_liq := [], pending_swaps := [], pending_claims := [],
    pending_state := none }

/-- `conn.commit()`: append all pending rows to their tables, apply the
pending checkpoint replacement if any, and clear the transaction. -/
def Conn.commit (c : Conn) : Conn :=
  { db :=
      { pool_liquidity_events := c.db.pool_liquidity_events ++ c.pending_liq
        pool_swaps := c.db.pool_swaps ++ c.pending_swaps
        pool_fee_claims := c.db.pool_fee_claims ++ c.pending_claims
        indexer_state :=
          match c.pending_state with
          | some v => some v
          | none => c.db.indexer_state }
    pending_liq := []
    pending_swaps := []
    pending_claims := []
    pending_state := none }

/-- A decoded `Mint` or `Burn` log (both have the same argument layout). -/
structure MintBurnLog where
  sender : String
  amount0 : Nat
  amount1 : Nat
  to_addr : String
  liquidity : Nat
  txHash : String
  blockNumber : Nat
deriving DecidableEq, Repr

/-- A decoded `Swap` log. -/
structure SwapLog where
  sender : String
  recipient : String
  amount0In : Nat
  amount1In : Nat
  amount0Out : Nat
  amount1Out : Nat
  txHash : String
  blockNumber : Nat
deriving DecidableEq, Repr

/-- A decoded `Claim` log. -/
structure ClaimLog where
  sender : String
  recipient : String
  amount0 : Nat
  amount1 : Nat
  txHash : String
  blockNumber : Nat
deriving DecidableEq, Repr

/-- The chain RPC as seen by the indexer: the current head
(`w3.eth.block_number`), the per-block timestamp lookup
(`get_block_timestamp`; `none` models a raised exception), and the full
per-pool log streams per event kind, from which `get_logs` over a block
range is a range filter. -/
structure Chain where
  block_number : Nat
  timestamp : Nat → Option Nat
  mintLogs : String → List MintBurnLog
  burnLogs : String → List MintBurnLog
  swapLogs : String → List SwapLog
  claimLogs : String → List ClaimLog

/-- `events.X.get_logs(from_block=a, to_block=b)`: the logs of the stream
whose block number lies in `[a, b]`, in stream order. -/
def getLogsInRange {L : Type} (blockOf : L → Nat) (logs : List L)
    (fromBlock toBlock : Nat) : List L :=
  logs.filter (fun l => decide (fromBlock ≤ blockOf l) && decide (blockOf l ≤ toBlock))

/-- The `pool_liquidity_events` row inserted for a `Mint` log
(`event_type = 'ADD'`). -/
def mintRow (pool_address : String) (ev : MintBurnLog) (ts : Nat) : LiqRow :=
  { pool_address := pyLower pool_address
    event_type := "ADD"
    token0_amount := ev.amount0
    token1_amount := ev.amount1
    provider_address := ev.sender
    tx_hash := ev.txHash
    block_number := ev.blockNumber
    block_time := ts }

/-- The `pool_liquidity_events` row inserted for a `Burn` log
(`event_type = 'REMOVE'`). -/
def burnRow (pool_address : String) (ev : MintBurnLog) (ts : Nat) : LiqRow :=
  { pool_address := pyLower pool_address
    event_type := "REMOVE"
    token0_amount := ev.amount0
    token1_amount := ev.amount1
    provider_address := ev.sender
    tx_hash := ev.txHash
    block_number := ev.blockNumber
    block_time := ts }

/-- The `pool_swaps` row inserted for a `Swap` log. -/
def swapRow (pool_address : String) (ev : SwapLog) (ts : Nat) : SwapRow :=
  { pool_address := pyLower pool_address
    sender := ev.sender
    recipient := ev.recipient
    amount0_in := ev.amount0In
    amount1_in := ev.amount1In
    amount0_out := ev.amount0Out
    amount1_out := ev.amount1Out
    tx_hash := ev.txHash
    block_number := ev.blockNumber
    block_time := ts }

/-- The `pool_fee_claims` row inserted for a `Claim` log. -/
def claimRow (pool_address : String) (ev : ClaimLog) (ts : Nat) : ClaimRow :=
  { pool_address := pyLower pool_address
    sender := ev.sender
    recipient := ev.recipient
    token0_fee := ev.amount0
    token1_fee := ev.amount1
    tx_hash := ev.txHash
    block_number := ev.blockNumber
    block_time := ts }

/-- One of the four `for ev in ...` insert loops of `index_pool_events`:
for each event, look up the block timestamp (a failing lookup raises, i.e.
returns the connection as it stands — with the rows inserted so far still
pending — and `false`), then execute the INSERT. -/
def insertLoop {L : Type} (ch : Chain) (blockOf : L → Nat)
    (ins : Conn → L → Nat → Conn) : List L → Conn → Conn × Bool
  | [], c => (c, true)
  | ev :: rest, c =>
    match ch.timestamp (blockOf ev) with
    | none => (c, false)
    | some ts => insertLoop ch blockOf ins rest (ins c ev ts)

/-- `index_pool_events(conn, pool_address, from_block, to_block)`:
fetch and insert Mint, then Burn, then Swap, then Claim logs of the pool
in the window, and commit at the end.  An exception anywhere (a failed
timestamp lookup) propagates to the caller without committing; the `Bool`
is `true` on success, and the returned connection keeps the rows executed
before the failure pending. -/
def index_pool_events (ch : Chain) (pool_address : String)
    (from_block to_block : Nat) (c : Conn) : Conn × Bool :=
  let mints := getLogsInRange (fun l => l.blockNumber) (ch.mintLogs pool_address)
      from_block to_block
  match insertLoop ch (fun l => l.blockNumber)
      (fun c ev ts => { c with pending_liq := c.pending_liq ++ [mintRow pool_address ev ts] })
      mints c with
  | (c, false) => (c, false)
  | (c, true) =>
    let burns := getLogsInRange (fun l => l.blockNumber) (ch.burnLogs pool_address)
        from_block to_block
    match insertLoop ch (fun l => l.blockNumber)
        (fun c ev ts => { c with pending_liq := c.pending_liq ++ [burnRow pool_address ev ts] })
        burns c with
    | (c, false) => (c, false)
    | (c, true) =>
      let swaps := getLogsInRange (fun l => l.blockNumber) (ch.swapLogs pool_address)
          from_block to_block
      match insertLoop ch (fun l => l.blockNumber)
          (fun c ev ts => { c with pending_swaps := c.pending_swaps ++ [swapRow pool_address ev ts] })
          swaps c with
      | (c, false) => (c, false)
      | (c, true) =>
        let claims := getLogsInRange (fun l => l.blockNumber) (ch.claimLogs pool_address)
            from_block to_block
        match insertLoop ch (fun l => l.blockNumber)
            (fun c ev ts => { c with pending_claims := c.pending_claims ++ [claimRow pool_address ev ts] })
            claims c with
        | (c, false) => (c, false)
        | (c, true) => (c.commit, true)

/-- `get_start_block(conn, default_lookback_blocks=200_000)`: read the
checkpoint; when the row is absent, seed it to
`max(0, current_block - default_lookback_blocks)` and commit immediately. -/
def get_start_block (ch : Chain) (c : Conn)
    (default_lookback_blocks : Nat := 200000) : Conn × Nat :=
  match c.db.indexer_state with
  | none =>
    let start_block : Nat :=
      (max 0 ((ch.block_number : Int) - (default_lookback_blocks : Int))).toNat
    (Conn.commit { c with pending_state := some start_block }, start_block)
  | some v => (c, v)

/-- `update_last_block(conn, last_block)`: `INSERT OR REPLACE` the
checkpoint row and commit. -/
def update_last_block (c : Conn) (last_block : Nat) : Conn :=
  Conn.commit { c with pending_state := some last_block }

/-- The window starts produced by `range(from_block, current_block + 1, step)`. -/
def windowStarts (from_block current_block step : Nat) : List Nat :=
  (List.range ((current_block + 1 - from_block + step - 1) / step)).map
    (fun i => from_block + i * step)

/-- The body of `main`'s window loop: for each window start, compute
`end = min(start + step - 1, current_block)`, attempt `index_pool_events`
for every pool (an exception is caught and only logged — the failure flag
is discarded), then `update_last_block(conn, end)`. -/
def processWindows (ch : Chain) (pools : List String) (step : Nat)
    (starts : List Nat) (c : Conn) : Conn :=
  starts.foldl
    (fun c start =>
      update_last_block
        (pools.foldl
          (fun c pool =>
            (index_pool_events ch pool start (min (start + step - 1) ch.block_number) c).1)
          c)
        (min (start + step - 1) ch.block_number))
    c

/-- `main(pools)`: connect, read or seed the checkpoint, return unchanged
when `from_block >= current_block`, otherwise process the windows of
`range(from_block, current_block + 1, 5000)`.  Returns the committed
database at exit. -/
def mainRun (ch : Chain) (pools : List String) (db : DB) : DB :=
  let c := Conn.connect db
  let r := get_start_block ch c
  let c := r.1
  let from_block := r.2
  if ch.block_number ≤ from_block then c.db
  else (processWindows ch pools 5000 (windowStarts from_block ch.block_number 5000) c).db

/-! ## Read path: `pool_events_reader.py` -/

/-- `get_token_decimals(token_address)`: look the token up in the
process-lifetime cache; on a miss, call `decimals()` on the token contract
(modelled by `oracle`, `none` being any raised exception), caching the
result on success and caching the fallback `18` on failure.  Returns the
decimals together with the updated cache (the Python function mutates the
module-global `_decimals_cache`). -/
def get_token_decimals (oracle : String → Option Nat)
    (cache : List (String × Nat)) (token_address : String) :
    Nat × List (String × Nat) :=
  match cache.lookup token_address with
  | some d => (d, cache)
  | none =>
    match oracle token_address with
    | some d => (d, (token_address, d) :: cache)
    | none => (18, (token_address, 18) :: cache)

/-- The result record of `get_recent_activity`. -/
structure RecentActivity where
  pool_address : String
  latest_add : Option String
  latest_remove : Option String
  latest_claim : Option String
deriving DecidableEq, Repr

/-- The `fmt` helper of `get_recent_activity`: the human-readable line for
one row, with `hours_ago = (now - block_time) // 3600` (floor division). -/
def fmtActivity (label : String) (t0 t1 : Nat) (who : String)
    (now block_time : Nat) : String :=
  let hours_ago : Int := ((now : Int) - (block_time : Int)).fdiv 3600
  label ++ ": token0 " ++ toString t0 ++ " / token1 " ++ toString t1 ++
    " by " ++ who ++ " (" ++ toString hours_ago ++ "h ago)"

/-- `ORDER BY block_time DESC LIMIT 1` over a filtered table: the head of
the rows sorted by descending `block_time` (insertion sort is stable, so
ties keep table order, matching SQLite's stable scan here). -/
def latestBy {R : Type} (block_time_of : R → Nat) (rows : List R) : Option R :=
  (List.insertionSort (fun a b => block_time_of b ≤ block_time_of a) rows).head?

/-- `get_recent_activity(pool_address, lookback_hours=48)`: the most recent
ADD, REMOVE and Claim rows for the pool within the window, each formatted,
with `None` for an absent row. -/
def get_recent_activity (db : DB) (pool_address : String) (now : Nat)
    (lookback_hours : Nat := 48) : RecentActivity :=
  let since_ts := now - lookback_hours * 3600
  let pool_lower := pyLower pool_address
  let add_row := latestBy (fun r => r.block_time)
    (db.pool_liquidity_events.filter
      (fun r => r.pool_address = pool_lower && r.event_type = "ADD" &&
        decide (since_ts ≤ r.block_time)))
  let remove_row := latestBy (fun r => r.block_time)
    (db.pool_liquidity_events.filter
      (fun r => r.pool_address = pool_lower && r.event_type = "REMOVE" &&
        decide (since_ts ≤ r.block_time)))
  let claim_row := latestBy (fun r => r.block_time)
    (db.pool_fee_claims.filter
      (fun r => r.pool_address = pool_lower && decide (since_ts ≤ r.block_time)))
  { pool_address := pool_address
    latest_add := add_row.map (fun r =>
      fmtActivity "Liquidity Added" r.token0_amount r.token1_amount
        r.provider_address now r.block_time)
    latest_remove := remove_row.map (fun r =>
      fmtActivity "Liquidity Removed" r.token0_amount r.token1_amount
        r.provider_address now r.block_time)
    latest_claim := claim_row.map (fun r =>
      fmtActivity "Fees Claimed" r.token0_fee r.token1_fee r.sender
        now r.block_time) }

/-- One output point of `get_liquidity_timeseries` (a DataFrame row):
time is the event's `block_time` in UNIX seconds; balances are the signed
running sums. -/
structure LiqPoint where
  time : Nat
  token0_balance : Int
  token1_balance : Int
deriving DecidableEq, Repr

/-- The rows returned by the liquidity query: the pool's liquidity events
with `block_time >= since_ts`, `ORDER BY block_time ASC` (stable). -/
def liquidityQueryRows (db : DB) (pool_lower : String) (since_ts : Nat) :
    List LiqRow :=
  List.insertionSort (fun a b => a.block_time ≤ b.block_time)
    (db.pool_liquidity_events.filter
      (fun r => r.pool_address = pool_lower && decide (since_ts ≤ r.block_time)))

/-- The replay loop of `get_liquidity_timeseries`: running signed balances,
`ADD` adds both amounts, anything else (`REMOVE`) subtracts both; one
output point per input row. -/
def replayLiquidity (t0 t1 : Int) : List LiqRow → List LiqPoint
  | [] => []
  | r :: rest =>
    let amt0 : Int := r.token0_amount
    let amt1 : Int := r.token1_amount
    let t0' := if r.event_type = "ADD" then t0 + amt0 else t0 - amt0
    let t1' := if r.event_type = "ADD" then t1 + amt1 else t1 - amt1
    { time := r.block_time, token0_balance := t0', token1_balance := t1' } ::
      replayLiquidity t0' t1' rest

/-- `get_liquidity_timeseries(pool_address, lookback_days=7)`: query the
pool's liquidity events in the window ordered by `block_time` ascending and
replay them from zero balances; an empty query yields an empty frame. -/
def get_liquidity_timeseries (db : DB) (pool_address : String) (now : Nat)
    (lookback_days : Nat := 7) : List LiqPoint :=
  let since_ts := now - lookback_days * 86400
  let rows := liquidityQueryRows db (pyLower pool_address) since_ts
  if rows = [] then [] else replayLiquidity 0 0 rows

/-- One output point of `get_swap_volume_timeseries`: the hour bucket
(UNIX seconds, truncated to the top of the hour) and the two normalized
gross volumes. -/
structure VolPoint where
  time : Nat
  token0_volume : ℚ
  token1_volume : ℚ
deriving DecidableEq, Repr

/-- `datetime.utcfromtimestamp(t).replace(minute=0, second=0, microsecond=0)`:
truncation to the top of the hour. -/
def hourBucket (t : Nat) : Nat := t - t % 3600

/-- The rows returned by the swap query: the pool's swaps with
`block_time >= since_ts`, `ORDER BY block_time ASC` (stable). -/
def swapQueryRows (db : DB) (pool_lower : String) (since_ts : Nat) :
    List SwapRow :=
  List.insertionSort (fun a b => a.block_time ≤ b.block_time)
    (db.pool_swaps.filter
      (fun r => r.pool_address = pool_lower && decide (since_ts ≤ r.block_time)))

/-- Binary64 round-to-nearest-even of a positive rational, in the normal
range: snap `q` to the grid of spacing `2^(e-52)` at its own binary
exponent `e`, breaking ties to the even significand. -/
def roundPos (q : ℚ) : ℚ :=
  let e : ℤ := Int.log 2 q
  let ulp : ℚ := 2 ^ (e - 52)
  let m : ℤ := ⌊q / ulp⌋
  let r : ℚ := q / ulp - (m : ℚ)
  let m' : ℤ :=
    if 1 / 2 < r then m + 1
    else if r < 1 / 2 then m
    else if m % 2 = 0 then m else m + 1
  (m' : ℚ) * ulp

/-- IEEE-754 binary64 rounding (round to nearest, ties to even) of a
rational, in the normal range; every value this program divides or sums
lies well inside it.  This is what Python's `/` on two ints returns. -/
def roundDouble (q : ℚ) : ℚ :=
  if q = 0 then 0 else if q < 0 then -roundPos (-q) else roundPos q

/-- One step of the compensated (Kahan) accumulation pandas' groupby sum
performs per group, every arithmetic operation rounded to binary64: the
state is the running sum and the running compensation. -/
def kahanStep (sc : ℚ × ℚ) (x : ℚ) : ℚ × ℚ :=
  let y := roundDouble (x - sc.2)
  let t := roundDouble (sc.1 + y)
  let c := roundDouble (roundDouble (t - sc.1) - y)
  (t, c)

/-- The binary64 compensated sum of a list of values in list order — the
model of what pandas' `groupby(...).sum()` computes per bucket. -/
def kahanSum (l : List ℚ) : ℚ :=
  (l.foldl kahanStep (0, 0)).1

/-- `df.groupby("time", as_index=False)[[...]].sum()`: one output row per
distinct bucket, keys sorted ascending, each volume the binary64
compensated sum over the records of that bucket in record order. -/
def groupByHourSum (records : List VolPoint) : List VolPoint :=
  let keys := List.insertionSort (fun a b => a ≤ b) (records.map (fun r => r.time)).dedup
  keys.map (fun k =>
    { time := k
      token0_volume := kahanSum ((records.filter (fun r => r.time = k)).map
        (fun r => r.token0_volume))
      token1_volume := kahanSum ((records.filter (fun r => r.time = k)).map
        (fun r => r.token1_volume)) })

/-- `get_swap_volume_timeseries(pool, token0, token1, lookback_days=7)`:
per swap in the window, one record with the hour-truncated timestamp and
gross volumes: the binary64-rounded quotient
`(amount_in + amount_out) / 10^decimals` per token (the exact integer sum
and scale divided with `roundDouble`, as Python float division computes),
then grouped and compensated-summed per hour.  Returns the frame together
with the updated decimals cache; an empty query returns before the
decimals lookups. -/
def get_swap_volume_timeseries (oracle : String → Option Nat)
    (cache : List (String × Nat)) (db : DB)
    (pool_address token0_address token1_address : String) (now : Nat)
    (lookback_days : Nat := 7) : List VolPoint × List (String × Nat) :=
  let since_ts := now - lookback_days * 86400
  let rows := swapQueryRows db (pyLower pool_address) since_ts
  if rows = [] then ([], cache)
  else
    let r0 := get_token_decimals oracle cache token0_address
    let dec0 := r0.1
    let r1 := get_token_decimals oracle r0.2 token1_address
    let dec1 := r1.1
    let scale0 : ℚ := 10 ^ dec0
    let scale1 : ℚ := 10 ^ dec1
    let records := rows.map (fun r =>
      { time := hourBucket r.block_time
        token0_volume := roundDouble (((r.amount0_in : ℚ) + (r.amount0_out : ℚ)) / scale0)
        token1_volume := roundDouble (((r.amount1_in : ℚ) + (r.amount1_out : ℚ)) / scale1) :
        VolPoint })
    (groupByHourSum records, r1.2)

/-! ## Derived vocabulary used by the statements -/

/-- The timestamp the indexer records for a block, on the runs where the
lookup does not fail. -/
def tsD (ch : Chain) (b : Nat) : Nat := (ch.timestamp b).getD 0

/-- The liquidity rows visible to the open connection: committed rows
followed by the pending rows of the open transaction. -/
def liqView (c : Conn) : List LiqRow :=
  c.db.pool_liquidity_events ++ c.pending_liq

/-- The swap rows visible to the open connection. -/
def swapView (c : Conn) : List SwapRow :=
  c.db.pool_swaps ++ c.pending_swaps

/-- The fee-claim rows visible to the open connection. -/
def claimView (c : Conn) : List ClaimRow :=
  c.db.pool_fee_claims ++ c.pending_claims

/-- The `Mint` logs the scanner fetches for a pool and window. -/
def rangeMints (ch : Chain) (q : String) (a b : Nat) : List MintBurnLog :=
  getLogsInRange (fun l => l.blockNumber) (ch.mintLogs q) a b

/-- The `Burn` logs the scanner fetches for a pool and window. -/
def rangeBurns (ch : Chain) (q : String) (a b : Nat) : List MintBurnLog :=
  getLogsInRange (fun l => l.blockNumber) (ch.burnLogs q) a b

/-- The `Swap` logs the scanner fetches for a pool and window. -/
def rangeSwaps (ch : Chain) (q : String) (a b : Nat) : List SwapLog :=
  getLogsInRange (fun l => l.blockNumber) (ch.swapLogs q) a b

/-- The `Claim` logs the scanner fetches for a pool and window. -/
def rangeClaims (ch : Chain) (q : String) (a b : Nat) : List ClaimLog :=
  getLogsInRange (fun l => l.blockNumber) (ch.claimLogs q) a b

/-- The row a successfully processed `Mint` log turns into. -/
def mkMint (ch : Chain) (q : String) (ev : MintBurnLog) : LiqRow :=
  mintRow q ev (tsD ch ev.blockNumber)

/-- The row a successfully processed `Burn` log turns into. -/
def mkBurn (ch : Chain) (q : String) (ev : MintBurnLog) : LiqRow :=
  burnRow q ev (tsD ch ev.blockNumber)

/-- The row a successfully processed `Swap` log turns into. -/
def mkSwap (ch : Chain) (q : String) (ev : SwapLog) : SwapRow :=
  swapRow q ev (tsD ch ev.blockNumber)

/-- The row a successfully processed `Claim` log turns into. -/
def mkClaim (ch : Chain) (q : String) (ev : ClaimLog) : ClaimRow :=
  claimRow q ev (tsD ch ev.blockNumber)

/-- The checkpoint value seeded on a first-ever run. -/
def seedBlock (ch : Chain) : Nat :=
  (max 0 ((ch.block_number : Int) - 200000)).toNat

def dbEmpty : DB := ⟨[], [], [], none⟩

def dbCk0 : DB := ⟨[], [], [], some 0⟩

def mintA : MintBurnLog := ⟨"lp1", 1000, 2000, "lp1", 1, "0xa", 1⟩

def burnB : MintBurnLog := ⟨"lp2", 400, 500, "lp2", 1, "0xb", 2⟩

def chBasic : Chain :=
  { block_number := 3
    timestamp := fun b => some (b * 100)
    mintLogs := fun _ => [mintA]
    burnLogs := fun _ => [burnB]
    swapLogs := fun _ => []
    claimLogs := fun _ => [] }

def signedDelta0 (r : LiqRow) : Int :=
  if r.event_type = "ADD" then (r.token0_amount : Int) else -(r.token0_amount : Int)

def signedDelta1 (r : LiqRow) : Int :=
  if r.event_type = "ADD" then (r.token1_amount : Int) else -(r.token1_amount : Int)

def rowAdd100 : LiqRow := ⟨"p", "ADD", 1000, 2000, "lp1", "0xa", 1, 100⟩

def rowRem200 : LiqRow := ⟨"p", "REMOVE", 400, 500, "lp1", "0xb", 2, 200⟩

def dbLiqScenario : DB := ⟨[rowAdd100, rowRem200], [], [], some 3⟩

def dbLiqRemoveOnly : DB := ⟨[rowRem200], [], [], some 3⟩

def rowOtherPool : LiqRow := ⟨"q", "ADD", 7, 8, "lp1", "0xc", 1, 100⟩

def dbOtherPool : DB := ⟨[rowOtherPool], [], [], some 3⟩

def swapRowA : SwapRow := ⟨"p", "a", "b", 100, 0, 0, 300, "0xd", 1, 3700⟩

def swapRowB : SwapRow := ⟨"p", "a", "b", 50, 10, 0, 0, "0xe", 2, 3800⟩

def dbSwapScenario : DB := ⟨[], [swapRowA, swapRowB], [], some 3⟩

def oracleT0 : String → Option Nat := fun t => if t = "T0" then some 2 else none

def mintF1 : MintBurnLog := ⟨"lp1", 5, 6, "lp1", 1, "0xf", 1⟩

def mintF2 : MintBurnLog := ⟨"lp1", 7, 8, "lp1", 1, "0xg", 2⟩

def chFail : Chain :=
  { block_number := 3
    timestamp := fun b => if b = 2 then none else some (b * 10)
    mintLogs := fun _ => [mintF1, mintF2]
    burnLogs := fun _ => []
    swapLogs := fun _ => []
    claimLogs := fun _ => [] }

def mintDup : MintBurnLog := ⟨"lp1", 9, 10, "lp1", 1, "0xh", 3⟩

def chDup : Chain :=
  { block_number := 3
    timestamp := fun b => some (b * 10)
    mintLogs := fun _ => [mintDup]
    burnLogs := fun _ => []
    swapLogs := fun _ => []
    claimLogs := fun _ => [] }

/-- The rows of a liquidity-table fragment belonging to pool `p` with a
given `event_type`. -/
def liqFilterOf (p kind : String) (l : List LiqRow) : List LiqRow :=
  l.filter (fun r => r.pool_address = pyLower p && r.event_type = kind)

/-- The rows of a swap-table fragment belonging to pool `p`. -/
def swapFilterOf (p : String) (l : List SwapRow) : List SwapRow :=
  l.filter (fun r => r.pool_address = pyLower p)

/-- The rows of a fee-claim-table fragment belonging to pool `p`. -/
def claimFilterOf (p : String) (l : List ClaimRow) : List ClaimRow :=
  l.filter (fun r => r.pool_address = pyLower p)

def mintCross : MintBurnLog := ⟨"lp1", 1, 1, "lp1", 1, "0xi", 20⟩

def burnCross : MintBurnLog := ⟨"lp1", 2, 2, "lp1", 1, "0xj", 10⟩

def chCross : Chain :=
  { block_number := 30
    timestamp := fun b => some (b * 10)
    mintLogs := fun _ => [mintCross]
    burnLogs := fun _ => [burnCross]
    swapLogs := fun _ => []
    claimLogs := fun _ => [] }

def swapTiny : SwapRow := ⟨"p", "a", "b", 1, 0, 0, 0, "0xk", 1, 3700⟩

def dbOneSwap : DB := ⟨[], [swapTiny], [], some 3⟩

def oracleOne : String → Option Nat := fun _ => some 1

/-! ## Basic lemmas about the store and the insert loops -/

lemma liqView_commit (c : Conn) : liqView (Conn.commit c) = liqView c := by
  simp [liqView, Conn.commit]

lemma swapView_commit (c : Conn) : swapView (Conn.commit c) = swapView c := by
  simp [swapView, Conn.commit]

lemma claimView_commit (c : Conn) : claimView (Conn.commit c) = claimView c := by
  simp [claimView, Conn.commit]

lemma update_last_block_state (c : Conn) (e : Nat) :
    (update_last_block c e).db.indexer_state = some e := by
  simp [update_last_block, Conn.commit]

lemma update_last_block_pending (c : Conn) (e : Nat) :
    (update_last_block c e).pending_state = none := by
  simp [update_last_block, Conn.commit]

lemma liqView_update_last_block (c : Conn) (e : Nat) :
    liqView (update_last_block c e) = liqView c := by
  rw [update_last_block, liqView_commit]
  simp [liqView]

lemma swapView_update_last_block (c : Conn) (e : Nat) :
    swapView (update_last_block c e) = swapView c := by
  rw [update_last_block, swapView_commit]
  simp [swapView]

lemma claimView_update_last_block (c : Conn) (e : Nat) :
    claimView (update_last_block c e) = claimView c := by
  rw [update_last_block, claimView_commit]
  simp [claimView]

/-- An insert loop processes some prefix of its events (all of them exactly
when it reports success), inserting each with its looked-up timestamp. -/
lemma insertLoop_spec {L : Type} (ch : Chain) (blockOf : L → Nat)
    (ins : Conn → L → Nat → Conn) (evs : List L) (c : Conn) :
    ∃ n, n ≤ evs.length ∧
      (insertLoop ch blockOf ins evs c).1 =
        (evs.take n).foldl (fun c ev => ins c ev (tsD ch (blockOf ev))) c ∧
      ((insertLoop ch blockOf ins evs c).2 = true ↔ n = evs.length) := by
  induction evs generalizing c with
  | nil => exact ⟨0, Nat.le_refl 0, rfl, by simp [insertLoop]⟩
  | cons ev rest ih =>
    cases hts : ch.timestamp (blockOf ev) with
    | none =>
      refine ⟨0, Nat.zero_le _, ?_, ?_⟩
      · simp [insertLoop, hts]
      · simp [insertLoop, hts]
    | some t =>
      obtain ⟨n, hn, h1, h2⟩ := ih (ins c ev t)
      refine ⟨n + 1, by simpa using hn, ?_, ?_⟩
      · simp only [insertLoop, hts, List.take_succ_cons, List.foldl_cons]
        have : tsD ch (blockOf ev) = t := by simp [tsD, hts]
        rw [this]
        exact h1
      · simp only [insertLoop, hts, List.length_cons]
        rw [h2]
        omega

/-- When every timestamp lookup succeeds, the insert loop processes every
event and reports success. -/
lemma insertLoop_all_some {L : Type} (ch : Chain) (blockOf : L → Nat)
    (ins : Conn → L → Nat → Conn) (evs : List L) (c : Conn)
    (h : ∀ ev ∈ evs, (ch.timestamp (blockOf ev)).isSome) :
    insertLoop ch blockOf ins evs c =
      (evs.foldl (fun c ev => ins c ev (tsD ch (blockOf ev))) c, true) := by
  induction evs generalizing c with
  | nil => rfl
  | cons ev rest ih =>
    have hev := h ev (List.mem_cons_self ev rest)
    cases hts : ch.timestamp (blockOf ev) with
    | none => rw [hts] at hev; simp at hev
    | some t =>
      simp only [insertLoop, hts, List.foldl_cons]
      have : tsD ch (blockOf ev) = t := by simp [tsD, hts]
      rw [this]
      exact ih _ (fun e he => h e (List.mem_cons_of_mem ev he))

/-- When the timestamp lookup fails exactly at event `k` (all earlier ones
succeeding), the insert loop inserts exactly the first `k` events and
raises. -/
lemma insertLoop_fails_at {L : Type} (ch : Chain) (blockOf : L → Nat)
    (ins : Conn → L → Nat → Conn) (evs : List L) (k : Nat)
    (hk : k < evs.length)
    (hfail : ch.timestamp (blockOf (evs.get ⟨k, hk⟩)) = none)
    (hpre : ∀ j, (hj : j < k) →
      (ch.timestamp (blockOf (evs.get ⟨j, Nat.lt_trans hj hk⟩))).isSome)
    (c : Conn) :
    insertLoop ch blockOf ins evs c =
      ((evs.take k).foldl (fun c ev => ins c ev (tsD ch (blockOf ev))) c, false) := by
  induction evs generalizing k c with
  | nil => simp at hk
  | cons ev rest ih =>
    cases k with
    | zero =>
      simp only [List.get] at hfail
      simp [insertLoop, hfail]
    | succ k =>
      have h0 := hpre 0 (Nat.succ_pos k)
      simp only [List.get] at h0
      cases hts : ch.timestamp (blockOf ev) with
      | none => rw [hts] at h0; simp at h0
      | some t =>
        simp only [insertLoop, hts, List.take_succ_cons, List.foldl_cons]
        have : tsD ch (blockOf ev) = t := by simp [tsD, hts]
        rw [this]
        exact ih k (Nat.lt_of_succ_lt_succ hk) hfail
          (fun j hj => hpre (j + 1) (Nat.succ_lt_succ hj)) _

lemma foldl_ins_liq (f : MintBurnLog → LiqRow) (evs : List MintBurnLog) (c : Conn) :
    evs.foldl (fun c ev => { c with pending_liq := c.pending_liq ++ [f ev] }) c
      = { c with pending_liq := c.pending_liq ++ evs.map f } := by
  induction evs generalizing c with
  | nil => simp
  | cons ev rest ih =>
    rw [List.foldl_cons, ih]
    simp

lemma foldl_ins_swap (f : SwapLog → SwapRow) (evs : List SwapLog) (c : Conn) :
    evs.foldl (fun c ev => { c with pending_swaps := c.pending_swaps ++ [f ev] }) c
      = { c with pending_swaps := c.pending_swaps ++ evs.map f } := by
  induction evs generalizing c with
  | nil => simp
  | cons ev rest ih =>
    rw [List.foldl_cons, ih]
    simp

lemma foldl_ins_claim (f : ClaimLog → ClaimRow) (evs : List ClaimLog) (c : Conn) :
    evs.foldl (fun c ev => { c with pending_claims := c.pending_claims ++ [f ev] }) c
      = { c with pending_claims := c.pending_claims ++ evs.map f } := by
  induction evs generalizing c with
  | nil => simp
  | cons ev rest ih =>
    rw [List.foldl_cons, ih]
    simp

lemma mint_stage (ch : Chain) (q : String) (a b : Nat) (c : Conn) :
    ∃ nm fl, nm ≤ (rangeMints ch q a b).length ∧
      insertLoop ch (fun l => l.blockNumber)
        (fun c ev ts => { c with pending_liq := c.pending_liq ++ [mintRow q ev ts] })
        (rangeMints ch q a b) c
      = ({ c with pending_liq :=
            c.pending_liq ++ ((rangeMints ch q a b).take nm).map (mkMint ch q) }, fl) ∧
      (fl = true ↔ nm = (rangeMints ch q a b).length) := by
  obtain ⟨nm, h1, h2, h3⟩ := insertLoop_spec ch (fun l => l.blockNumber)
    (fun c ev ts => { c with pending_liq := c.pending_liq ++ [mintRow q ev ts] })
    (rangeMints ch q a b) c
  refine ⟨nm, _, h1, ?_, h3⟩
  refine Prod.ext ?_ rfl
  rw [h2]
  exact foldl_ins_liq (fun ev => mintRow q ev (tsD ch ev.blockNumber))
    ((rangeMints ch q a b).take nm) c

lemma burn_stage (ch : Chain) (q : String) (a b : Nat) (c : Conn) :
    ∃ nb fl, nb ≤ (rangeBurns ch q a b).length ∧
      insertLoop ch (fun l => l.blockNumber)
        (fun c ev ts => { c with pending_liq := c.pending_liq ++ [burnRow q ev ts] })
        (rangeBurns ch q a b) c
      = ({ c with pending_liq :=
            c.pending_liq ++ ((rangeBurns ch q a b).take nb).map (mkBurn ch q) }, fl) ∧
      (fl = true ↔ nb = (rangeBurns ch q a b).length) := by
  obtain ⟨nb, h1, h2, h3⟩ := insertLoop_spec ch (fun l => l.blockNumber)
    (fun c ev ts => { c with pending_liq := c.pending_liq ++ [burnRow q ev ts] })
    (rangeBurns ch q a b) c
  refine ⟨nb, _, h1, ?_, h3⟩
  refine Prod.ext ?_ rfl
  rw [h2]
  exact foldl_ins_liq (fun ev => burnRow q ev (tsD ch ev.blockNumber))
    ((rangeBurns ch q a b).take nb) c

lemma swap_stage (ch : Chain) (q : String) (a b : Nat) (c : Conn) :
    ∃ ns fl, ns ≤ (rangeSwaps ch q a b).length ∧
      insertLoop ch (fun l => l.blockNumber)
        (fun c ev ts => { c with pending_swaps := c.pending_swaps ++ [swapRow q ev ts] })
        (rangeSwaps ch q a b) c
      = ({ c with pending_swaps :=
            c.pending_swaps ++ ((rangeSwaps ch q a b).take ns).map (mkSwap ch q) }, fl) ∧
      (fl = true ↔ ns = (rangeSwaps ch q a b).length) := by
  obtain ⟨ns, h1, h2, h3⟩ := insertLoop_spec ch (fun l => l.blockNumber)
    (fun c ev ts => { c with pending_swaps := c.pending_swaps ++ [swapRow q ev ts] })
    (rangeSwaps ch q a b) c
  refine ⟨ns, _, h1, ?_, h3⟩
  refine Prod.ext ?_ rfl
  rw [h2]
  exact foldl_ins_swap (fun ev => swapRow q ev (tsD ch ev.blockNumber))
    ((rangeSwaps ch q a b).take ns) c

lemma claim_stage (ch : Chain) (q : String) (a b : Nat) (c : Conn) :
    ∃ nc fl, nc ≤ (rangeClaims ch q a b).length ∧
      insertLoop ch (fun l => l.blockNumber)
        (fun c ev ts => { c with pending_claims := c.pending_claims ++ [claimRow q ev ts] })
        (rangeClaims ch q a b) c
      = ({ c with pending_claims :=
            c.pending_claims ++ ((rangeClaims ch q a b).take nc).map (mkClaim ch q) }, fl) ∧
      (fl = true ↔ nc = (rangeClaims ch q a b).length) := by
  obtain ⟨nc, h1, h2, h3⟩ := insertLoop_spec ch (fun l => l.blockNumber)
    (fun c ev ts => { c with pending_claims := c.pending_claims ++ [claimRow q ev ts] })
    (rangeClaims ch q a b) c
  refine ⟨nc, _, h1, ?_, h3⟩
  refine Prod.ext ?_ rfl
  rw [h2]
  exact foldl_ins_claim (fun ev => claimRow q ev (tsD ch ev.blockNumber))
    ((rangeClaims ch q a b).take nc) c

/-- What one `index_pool_events` call does, success or failure: it appends
a prefix of the window's Mint rows then Burn rows to the liquidity view, a
prefix of the Swap rows to the swap view and a prefix of the Claim rows to
the claim view — all prefixes full exactly when the call succeeds — and it
neither sets a pending checkpoint nor moves the committed one. -/
lemma index_pool_events_spec (ch : Chain) (q : String) (a b : Nat) (c : Conn) :
    ∃ nm nb ns nc,
      liqView (index_pool_events ch q a b c).1 =
        liqView c ++ ((rangeMints ch q a b).take nm).map (mkMint ch q)
          ++ ((rangeBurns ch q a b).take nb).map (mkBurn ch q) ∧
      swapView (index_pool_events ch q a b c).1 =
        swapView c ++ ((rangeSwaps ch q a b).take ns).map (mkSwap ch q) ∧
      claimView (index_pool_events ch q a b c).1 =
        claimView c ++ ((rangeClaims ch q a b).take nc).map (mkClaim ch q) ∧
      (c.pending_state = none →
        (index_pool_events ch q a b c).1.pending_state = none ∧
        (index_pool_events ch q a b c).1.db.indexer_state = c.db.indexer_state) ∧
      ((index_pool_events ch q a b c).2 = true →
        nm = (rangeMints ch q a b).length ∧ nb = (rangeBurns ch q a b).length ∧
        ns = (rangeSwaps ch q a b).length ∧ nc = (rangeClaims ch q a b).length) := by
  obtain ⟨nm, flm, hnm, hm, hm2⟩ := mint_stage ch q a b c
  simp only [index_pool_events, rangeMints, rangeBurns, rangeSwaps, rangeClaims] at hm ⊢
  rw [hm]
  cases flm with
  | false =>
    refine ⟨nm, 0, 0, 0, ?_, ?_, ?_, ?_, ?_⟩ <;>
      simp [liqView, swapView, claimView, List.append_assoc]
  | true =>
    obtain ⟨nb, flb, hnb, hb, hb2⟩ := burn_stage ch q a b
      { c with pending_liq :=
          c.pending_liq ++ ((rangeMints ch q a b).take nm).map (mkMint ch q) }
    simp only [rangeMints, rangeBurns] at hb
    dsimp only
    rw [hb]
    cases flb with
    | false =>
      refine ⟨nm, nb, 0, 0, ?_, ?_, ?_, ?_, ?_⟩ <;>
        simp [liqView, swapView, claimView, List.append_assoc]
    | true =>
      obtain ⟨ns, fls, hns, hs, hs2⟩ := swap_stage ch q a b
        { c with pending_liq :=
            c.pending_liq ++ ((rangeMints ch q a b).take nm).map (mkMint ch q)
              ++ ((rangeBurns ch q a b).take nb).map (mkBurn ch q) }
      simp only [rangeMints, rangeBurns, rangeSwaps, List.append_assoc] at hs
      dsimp only
      rw [← List.append_assoc] at hs
      rw [hs]
      cases fls with
      | false =>
        refine ⟨nm, nb, ns, 0, ?_, ?_, ?_, ?_, ?_⟩ <;>
          simp [liqView, swapView, claimView, List.append_assoc]
      | true =>
        obtain ⟨nc, flc, hnc, hc, hc2⟩ := claim_stage ch q a b
          { { c with pending_liq :=
                c.pending_liq ++ ((rangeMints ch q a b).take nm).map (mkMint ch q)
                  ++ ((rangeBurns ch q a b).take nb).map (mkBurn ch q) } with
              pending_swaps :=
                c.pending_swaps ++ ((rangeSwaps ch q a b).take ns).map (mkSwap ch q) }
        simp only [rangeMints, rangeBurns, rangeSwaps, rangeClaims] at hc
        dsimp only
        rw [hc]
        cases flc with
        | false =>
          refine ⟨nm, nb, ns, nc, ?_, ?_, ?_, ?_, ?_⟩ <;>
            simp [liqView, swapView, claimView, List.append_assoc]
        | true =>
          refine ⟨nm, nb, ns, nc, ?_, ?_, ?_, ?_, ?_⟩
          · simp [liqView, Conn.commit, List.append_assoc]
          · simp [swapView, Conn.commit, List.append_assoc]
          · simp [claimView, Conn.commit, List.append_assoc]
          · intro hps
            constructor
            · simp [Conn.commit]
            · simp [Conn.commit, hps]
          · intro _
            exact ⟨hm2.mp rfl, hb2.mp rfl, hs2.mp rfl, hc2.mp rfl⟩

/-- When every timestamp lookup succeeds, `index_pool_events` raises no
exception. -/
lemma index_pool_events_success (ch : Chain) (q : String) (a b : Nat) (c : Conn)
    (h : ∀ bn, (ch.timestamp bn).isSome) :
    (index_pool_events ch q a b c).2 = true := by
  simp only [index_pool_events]
  rw [insertLoop_all_some _ _ _ _ _ (fun ev _ => h _)]
  dsimp only
  rw [insertLoop_all_some _ _ _ _ _ (fun ev _ => h _)]
  dsimp only
  rw [insertLoop_all_some _ _ _ _ _ (fun ev _ => h _)]
  dsimp only
  rw [insertLoop_all_some _ _ _ _ _ (fun ev _ => h _)]

lemma windowStarts_length (f cb st : Nat) :
    (windowStarts f cb st).length = (cb + 1 - f + st - 1) / st := by
  simp [windowStarts]

lemma windowStarts_getElem (f cb st i : Nat) (hi : i < (windowStarts f cb st).length) :
    (windowStarts f cb st).get ⟨i, hi⟩ = f + i * st := by
  simp [windowStarts]

lemma windowStarts_mem_le (f cb : Nat) (hf : f < cb) (s : Nat)
    (hs : s ∈ windowStarts f cb 5000) : f ≤ s ∧ s ≤ cb := by
  simp only [windowStarts, List.mem_map, List.mem_range] at hs
  obtain ⟨i, hi, rfl⟩ := hs
  omega

lemma windowStarts_ne_nil (f cb : Nat) (hf : f < cb) :
    windowStarts f cb 5000 ≠ [] := by
  have h := windowStarts_length f cb 5000
  intro hnil
  rw [hnil] at h
  simp at h
  omega

lemma windowStarts_head (f cb : Nat) (hf : f < cb) :
    (windowStarts f cb 5000).head (windowStarts_ne_nil f cb hf) = f := by
  have hlen : 0 < (windowStarts f cb 5000).length := by
    rw [windowStarts_length]; omega
  rw [List.head_eq_getElem]
  have := windowStarts_getElem f cb 5000 0 hlen
  simpa using this

lemma windowStarts_getLast? (f cb : Nat) (hf : f < cb) :
    ∃ l, (windowStarts f cb 5000).getLast? = some l ∧
      f ≤ l ∧ l ≤ cb ∧ cb ≤ l + 4999 := by
  have hlen : 0 < (windowStarts f cb 5000).length := by
    rw [windowStarts_length]; omega
  have hi : (windowStarts f cb 5000).length - 1 < (windowStarts f cb 5000).length := by
    omega
  refine ⟨(windowStarts f cb 5000).get ⟨(windowStarts f cb 5000).length - 1, hi⟩, ?_, ?_⟩
  · rw [List.getLast?_eq_getElem?]
    rw [List.getElem?_eq_getElem hi]
    rfl
  · have hg := windowStarts_getElem f cb 5000 _ hi
    rw [hg]
    rw [windowStarts_length]
    omega

lemma processWindows_nil (ch : Chain) (pools : List String) (step : Nat) (c : Conn) :
    processWindows ch pools step [] c = c := rfl

lemma processWindows_append (ch : Chain) (pools : List String) (step : Nat)
    (xs ys : List Nat) (c : Conn) :
    processWindows ch pools step (xs ++ ys) c =
      processWindows ch pools step ys (processWindows ch pools step xs c) := by
  simp [processWindows, List.foldl_append]

lemma processWindows_concat (ch : Chain) (pools : List String) (step : Nat)
    (xs : List Nat) (s : Nat) (c : Conn) :
    processWindows ch pools step (xs ++ [s]) c =
      update_last_block
        (pools.foldl
          (fun c pool =>
            (index_pool_events ch pool s (min (s + step - 1) ch.block_number) c).1)
          (processWindows ch pools step xs c))
        (min (s + step - 1) ch.block_number) := by
  rw [processWindows_append]
  rfl

/-- After a nonempty run of windows, the committed checkpoint is the end of
the last window and the transaction is closed. -/
lemma processWindows_last_state (ch : Chain) (pools : List String) (step : Nat)
    (xs : List Nat) (s : Nat) (c : Conn) :
    (processWindows ch pools step (xs ++ [s]) c).db.indexer_state =
        some (min (s + step - 1) ch.block_number) ∧
      (processWindows ch pools step (xs ++ [s]) c).pending_liq = [] ∧
      (processWindows ch pools step (xs ++ [s]) c).pending_swaps = [] ∧
      (processWindows ch pools step (xs ++ [s]) c).pending_claims = [] ∧
      (processWindows ch pools step (xs ++ [s]) c).pending_state = none := by
  rw [processWindows_concat]
  exact ⟨update_last_block_state _ _, rfl, rfl, rfl, rfl⟩

lemma get_start_block_some (ch : Chain) (c : Conn) (v : Nat)
    (h : c.db.indexer_state = some v) : get_start_block ch c = (c, v) := by
  simp [get_start_block, h]

lemma get_start_block_none (ch : Chain) (c : Conn)
    (h : c.db.indexer_state = none) :
    get_start_block ch c =
      (Conn.commit { c with pending_state := some (seedBlock ch) }, seedBlock ch) := by
  simp [get_start_block, h, seedBlock]

lemma mainRun_noop (ch : Chain) (pools : List String) (db : DB) (v : Nat)
    (hv : db.indexer_state = some v) (hh : ch.block_number ≤ v) :
    mainRun ch pools db = db := by
  simp only [mainRun, Conn.connect]
  rw [get_start_block_some ch _ v hv]
  simp [hh]

lemma mainRun_process (ch : Chain) (pools : List String) (db : DB) (v : Nat)
    (hv : db.indexer_state = some v) (hlt : v < ch.block_number) :
    mainRun ch pools db =
      (processWindows ch pools 5000 (windowStarts v ch.block_number 5000)
        (Conn.connect db)).db := by
  simp only [mainRun]
  rw [get_start_block_some ch _ v hv]
  simp [Nat.not_le.mpr hlt]

lemma mainRun_none_eq (ch : Chain) (pools : List String) (db : DB)
    (hv : db.indexer_state = none) :
    mainRun ch pools db =
      if ch.block_number ≤ seedBlock ch then
        { db with indexer_state := some (seedBlock ch) }
      else
        (processWindows ch pools 5000 (windowStarts (seedBlock ch) ch.block_number 5000)
          (Conn.commit { Conn.connect db with pending_state := some (seedBlock ch) })).db := by
  simp only [mainRun]
  rw [get_start_block_none ch _ hv]
  split
  · simp [Conn.commit, Conn.connect]
  · rfl

lemma processWindows_final_state (ch : Chain) (pools : List String) (f : Nat)
    (hf : f < ch.block_number) (c : Conn) :
    (processWindows ch pools 5000 (windowStarts f ch.block_number 5000) c).db.indexer_state
      = some ch.block_number := by
  obtain ⟨l, hl, hfl, hlcb, hcbl⟩ := windowStarts_getLast? f ch.block_number hf
  rcases List.eq_nil_or_concat (windowStarts f ch.block_number 5000) with hnil | ⟨xs, s, hcat⟩
  · rw [hnil] at hl; simp at hl
  · rw [List.concat_eq_append] at hcat
    rw [hcat, List.getLast?_concat] at hl
    rw [hcat]
    rw [(processWindows_last_state ch pools 5000 xs s c).1]
    injection hl with hs
    subst hs
    simp only [Option.some.injEq]
    omega

lemma mainRun_state_of_lt (ch : Chain) (pools : List String) (db : DB) (v : Nat)
    (hv : db.indexer_state = some v) (hlt : v < ch.block_number) :
    (mainRun ch pools db).indexer_state = some ch.block_number := by
  rw [mainRun_process ch pools db v hv hlt]
  exact processWindows_final_state ch pools v hlt _

lemma mainRun_state_ge (ch : Chain) (pools : List String) (db : DB) :
    ∃ w, (mainRun ch pools db).indexer_state = some w ∧ ch.block_number ≤ w := by
  cases hdb : db.indexer_state with
  | some v =>
    rcases le_or_lt ch.block_number v with hle | hlt
    · exact ⟨v, by rw [mainRun_noop ch pools db v hdb hle]; exact hdb, hle⟩
    · exact ⟨ch.block_number, mainRun_state_of_lt ch pools db v hdb hlt, le_refl _⟩
  | none =>
    rw [mainRun_none_eq ch pools db hdb]
    rcases le_or_lt ch.block_number (seedBlock ch) with hle | hlt
    · rw [if_pos hle]
      exact ⟨seedBlock ch, rfl, hle⟩
    · rw [if_neg (Nat.not_le.mpr hlt)]
      exact ⟨ch.block_number, processWindows_final_state ch pools _ hlt _, le_refl _⟩

/-- C1: after every processed window the checkpoint is persisted to that
window's end block, whatever the pools' indexing outcomes were in it, and
across any run the stored `last_block` never decreases. -/
theorem checkpoint_window_end_and_monotonic :
    (∀ (ch : Chain) (pools : List String) (step : Nat) (starts : List Nat)
      (c : Conn) (i : Nat) (hi : i < starts.length),
      (processWindows ch pools step (starts.take (i + 1)) c).db.indexer_state =
        some (min (starts.get ⟨i, hi⟩ + step - 1) ch.block_number)) ∧
    (∀ (ch : Chain) (pools : List String) (db : DB) (v : Nat),
      db.indexer_state = some v →
      ∃ w, (mainRun ch pools db).indexer_state = some w ∧ v ≤ w) := by
  constructor
  · intro ch pools step starts c i hi
    rw [List.take_succ, List.getElem?_eq_getElem hi]
    simp only [Option.toList_some]
    rw [(processWindows_last_state ch pools step (starts.take i) _ c).1]
    rfl
  · intro ch pools db v hv
    rcases le_or_lt ch.block_number v with hle | hlt
    · exact ⟨v, by rw [mainRun_noop ch pools db v hv hle]; exact hv, le_refl v⟩
    · exact ⟨ch.block_number, mainRun_state_of_lt ch pools db v hv hlt, le_of_lt hlt⟩

theorem checkpoint_window_end_and_monotonic_witness :
    (processWindows chBasic ["P"] 5000 (([0] : List Nat).take (0 + 1))
        (Conn.connect dbCk0)).db.indexer_state =
      some (min (([0] : List Nat).get ⟨0, Nat.zero_lt_one⟩ + 5000 - 1)
        chBasic.block_number) ∧
    (∃ w, (mainRun chBasic ["P"] dbCk0).indexer_state = some w ∧ 0 ≤ w) :=
  ⟨checkpoint_window_end_and_monotonic.1 chBasic ["P"] 5000 [0]
      (Conn.connect dbCk0) 0 Nat.zero_lt_one,
    checkpoint_window_end_and_monotonic.2 chBasic ["P"] dbCk0 0 rfl⟩

/-- C2: when the chain head has not advanced past the stored checkpoint the
run changes nothing in the database, so a second run right after a first
one is a no-op. -/
theorem scanner_rerun_noop :
    (∀ (ch : Chain) (pools : List String) (db : DB) (v : Nat),
      db.indexer_state = some v → ch.block_number ≤ v →
      mainRun ch pools db = db) ∧
    (∀ (ch : Chain) (pools : List String) (db : DB),
      mainRun ch pools (mainRun ch pools db) = mainRun ch pools db) := by
  constructor
  · exact fun ch pools db v hv hh => mainRun_noop ch pools db v hv hh
  · intro ch pools db
    obtain ⟨w, hw, hge⟩ := mainRun_state_ge ch pools db
    exact mainRun_noop ch pools _ w hw hge

theorem scanner_rerun_noop_witness :
    mainRun chBasic ["P"] ⟨[], [], [], some 5⟩ = ⟨[], [], [], some 5⟩ ∧
    mainRun chBasic ["P"] (mainRun chBasic ["P"] dbEmpty) =
      mainRun chBasic ["P"] dbEmpty :=
  ⟨scanner_rerun_noop.1 chBasic ["P"] ⟨[], [], [], some 5⟩ 5 rfl (by decide),
    scanner_rerun_noop.2 chBasic ["P"] dbEmpty⟩

/-- C6: on a first-ever run (no checkpoint row) the scanner seeds the
checkpoint to `max(0, head - 200000)`, commits it at once, and the seed is
`0` exactly when the head is at most `200000`. -/
theorem first_run_checkpoint_seed (ch : Chain) (c : Conn)
    (h : c.db.indexer_state = none) :
    (get_start_block ch c).2 = (max 0 ((ch.block_number : Int) - 200000)).toNat ∧
    (get_start_block ch c).2 = ch.block_number - 200000 ∧
    (get_start_block ch c).1.db.indexer_state = some (get_start_block ch c).2 ∧
    ((get_start_block ch c).2 = 0 ↔ ch.block_number ≤ 200000) := by
  rw [get_start_block_none ch c h]
  refine ⟨rfl, ?_, ?_, ?_⟩
  · simp only [seedBlock]
    omega
  · simp [Conn.commit]
  · simp only [seedBlock]
    omega

theorem first_run_checkpoint_seed_witness :
    (get_start_block chBasic (Conn.connect dbEmpty)).2 =
        (max 0 ((chBasic.block_number : Int) - 200000)).toNat ∧
      (get_start_block chBasic (Conn.connect dbEmpty)).2 =
        chBasic.block_number - 200000 ∧
      (get_start_block chBasic (Conn.connect dbEmpty)).1.db.indexer_state =
        some (get_start_block chBasic (Conn.connect dbEmpty)).2 ∧
      ((get_start_block chBasic (Conn.connect dbEmpty)).2 = 0 ↔
        chBasic.block_number ≤ 200000) :=
  first_run_checkpoint_seed chBasic (Conn.connect dbEmpty) rfl

lemma replayLiquidity_length (rows : List LiqRow) (t0 t1 : Int) :
    (replayLiquidity t0 t1 rows).length = rows.length := by
  induction rows generalizing t0 t1 with
  | nil => rfl
  | cons r rest ih => simp [replayLiquidity, ih]

lemma replayLiquidity_get (rows : List LiqRow) (t0 t1 : Int) (i : Nat)
    (hi : i < (replayLiquidity t0 t1 rows).length) :
    ∃ hr : i < rows.length,
      (replayLiquidity t0 t1 rows).get ⟨i, hi⟩ =
        { time := (rows.get ⟨i, hr⟩).block_time
          token0_balance := t0 + ((rows.take (i + 1)).map signedDelta0).sum
          token1_balance := t1 + ((rows.take (i + 1)).map signedDelta1).sum } := by
  induction rows generalizing t0 t1 i with
  | nil => simp [replayLiquidity] at hi
  | cons r rest ih =>
    have hr : i < (r :: rest).length := by
      rw [replayLiquidity_length] at hi
      exact hi
    refine ⟨hr, ?_⟩
    cases i with
    | zero =>
      simp only [replayLiquidity, List.get, List.take_succ_cons, List.take_zero,
        List.map_cons, List.map_nil, List.sum_cons, List.sum_nil, add_zero]
      by_cases hAdd : r.event_type = "ADD" <;>
        simp [hAdd, signedDelta0, signedDelta1, sub_eq_add_neg]
    | succ i =>
      simp only [replayLiquidity, List.get] at hi ⊢
      obtain ⟨hr', heq⟩ := ih _ _ i (by simpa using hi)
      rw [heq]
      simp only [List.take_succ_cons, List.map_cons, List.sum_cons]
      by_cases hAdd : r.event_type = "ADD" <;>
        simp [hAdd, signedDelta0, signedDelta1, sub_eq_add_neg, add_assoc]

/-- C3: the liquidity query sorts the pool's in-window events by ascending
`block_time`, replays them with a running signed accumulator (ADD adds
both amounts, REMOVE subtracts both) emitting one point per event with no
clamping at zero; on the spec's scenario it yields
`[(100, 1000, 2000), (200, 600, 1500)]`, and a lone REMOVE goes negative. -/
theorem liquidity_timeseries_replay :
    (∀ (db : DB) (pool : String) (now lookback_days : Nat),
      List.Sorted (fun a b : LiqRow => a.block_time ≤ b.block_time)
          (liquidityQueryRows db (pyLower pool) (now - lookback_days * 86400)) ∧
        (liquidityQueryRows db (pyLower pool) (now - lookback_days * 86400)).Perm
          (db.pool_liquidity_events.filter (fun r =>
            r.pool_address = pyLower pool &&
              decide (now - lookback_days * 86400 ≤ r.block_time))) ∧
        (get_liquidity_timeseries db pool now lookback_days).length =
          (liquidityQueryRows db (pyLower pool) (now - lookback_days * 86400)).length ∧
        (∀ i (hi : i < (get_liquidity_timeseries db pool now lookback_days).length),
          ∃ hr : i < (liquidityQueryRows db (pyLower pool)
              (now - lookback_days * 86400)).length,
            (get_liquidity_timeseries db pool now lookback_days).get ⟨i, hi⟩ =
              { time := ((liquidityQueryRows db (pyLower pool)
                    (now - lookback_days * 86400)).get ⟨i, hr⟩).block_time
                token0_balance := (((liquidityQueryRows db (pyLower pool)
                    (now - lookback_days * 86400)).take (i + 1)).map signedDelta0).sum
                token1_balance := (((liquidityQueryRows db (pyLower pool)
                    (now - lookback_days * 86400)).take (i + 1)).map signedDelta1).sum })) ∧
      get_liquidity_timeseries dbLiqScenario "P" 300 7 =
        [⟨100, 1000, 2000⟩, ⟨200, 600, 1500⟩] ∧
      get_liquidity_timeseries dbLiqRemoveOnly "P" 300 7 = [⟨200, -400, -500⟩] := by
  refine ⟨?_, by decide, by decide⟩
  intro db pool now lookback_days
  letI : IsTotal LiqRow (fun a b : LiqRow => a.block_time ≤ b.block_time) :=
    ⟨fun a b => Nat.le_total a.block_time b.block_time⟩
  letI : IsTrans LiqRow (fun a b : LiqRow => a.block_time ≤ b.block_time) :=
    ⟨fun _ _ _ => Nat.le_trans⟩
  have hdef : get_liquidity_timeseries db pool now lookback_days =
      if liquidityQueryRows db (pyLower pool) (now - lookback_days * 86400) = []
      then []
      else replayLiquidity 0 0
        (liquidityQueryRows db (pyLower pool) (now - lookback_days * 86400)) := rfl
  refine ⟨List.sorted_insertionSort _ _, List.perm_insertionSort _ _, ?_, ?_⟩
  · rw [hdef]
    split
    · rename_i hnil
      rw [hnil]
      rfl
    · exact replayLiquidity_length _ 0 0
  · intro i hi
    rw [hdef] at hi
    split at hi
    · simp at hi
    · rename_i hnil
      have hout : get_liquidity_timeseries db pool now lookback_days =
          replayLiquidity 0 0
            (liquidityQueryRows db (pyLower pool) (now - lookback_days * 86400)) := by
        rw [hdef, if_neg hnil]
      obtain ⟨hr, heq⟩ := replayLiquidity_get _ 0 0 i hi
      refine ⟨hr, ?_⟩
      simp only [List.get_eq_getElem] at heq ⊢
      simp only [hout]
      rw [heq]
      simp

theorem liquidity_timeseries_replay_witness :
    ∃ hr : 0 < (liquidityQueryRows dbLiqScenario (pyLower "P")
        (300 - 7 * 86400)).length,
      (get_liquidity_timeseries dbLiqScenario "P" 300 7).get ⟨0, by decide⟩ =
        { time := ((liquidityQueryRows dbLiqScenario (pyLower "P")
              (300 - 7 * 86400)).get ⟨0, hr⟩).block_time
          token0_balance := (((liquidityQueryRows dbLiqScenario (pyLower "P")
              (300 - 7 * 86400)).take (0 + 1)).map signedDelta0).sum
          token1_balance := (((liquidityQueryRows dbLiqScenario (pyLower "P")
              (300 - 7 * 86400)).take (0 + 1)).map signedDelta1).sum } :=
  (liquidity_timeseries_replay.1 dbLiqScenario "P" 300 7).2.2.2 0 (by decide)

/-- C7: a pool with no stored events in the queried windows makes all three
query functions return empty results instead of raising. -/
theorem empty_window_empty_results (db : DB) (pool : String) (now : Nat)
    (lookback_hours lookback_days : Nat) (oracle : String → Option Nat)
    (cache : List (String × Nat)) (token0_address token1_address : String)
    (hLh : ∀ r ∈ db.pool_liquidity_events,
      ¬(r.pool_address = pyLower pool ∧ now - lookback_hours * 3600 ≤ r.block_time))
    (hC : ∀ r ∈ db.pool_fee_claims,
      ¬(r.pool_address = pyLower pool ∧ now - lookback_hours * 3600 ≤ r.block_time))
    (hLd : ∀ r ∈ db.pool_liquidity_events,
      ¬(r.pool_address = pyLower pool ∧ now - lookback_days * 86400 ≤ r.block_time))
    (hS : ∀ r ∈ db.pool_swaps,
      ¬(r.pool_address = pyLower pool ∧ now - lookback_days * 86400 ≤ r.block_time)) :
    get_recent_activity db pool now lookback_hours =
        { pool_address := pool, latest_add := none, latest_remove := none,
          latest_claim := none } ∧
      get_liquidity_timeseries db pool now lookback_days = [] ∧
      (get_swap_volume_timeseries oracle cache db pool token0_address
        token1_address now lookback_days).1 = [] := by
  have hfadd : db.pool_liquidity_events.filter (fun r =>
      r.pool_address = pyLower pool && r.event_type = "ADD" &&
        decide (now - lookback_hours * 3600 ≤ r.block_time)) = [] := by
    rw [List.filter_eq_nil_iff]
    intro r hr
    have := hLh r hr
    simp only [Bool.and_eq_true, decide_eq_true_eq]
    tauto
  have hfrem : db.pool_liquidity_events.filter (fun r =>
      r.pool_address = pyLower pool && r.event_type = "REMOVE" &&
        decide (now - lookback_hours * 3600 ≤ r.block_time)) = [] := by
    rw [List.filter_eq_nil_iff]
    intro r hr
    have := hLh r hr
    simp only [Bool.and_eq_true, decide_eq_true_eq]
    tauto
  have hfclaim : db.pool_fee_claims.filter (fun r =>
      r.pool_address = pyLower pool &&
        decide (now - lookback_hours * 3600 ≤ r.block_time)) = [] := by
    rw [List.filter_eq_nil_iff]
    intro r hr
    have := hC r hr
    simp only [Bool.and_eq_true, decide_eq_true_eq]
    tauto
  have hfliq : db.pool_liquidity_events.filter (fun r =>
      r.pool_address = pyLower pool &&
        decide (now - lookback_days * 86400 ≤ r.block_time)) = [] := by
    rw [List.filter_eq_nil_iff]
    intro r hr
    have := hLd r hr
    simp only [Bool.and_eq_true, decide_eq_true_eq]
    tauto
  have hfswap : db.pool_swaps.filter (fun r =>
      r.pool_address = pyLower pool &&
        decide (now - lookback_days * 86400 ≤ r.block_time)) = [] := by
    rw [List.filter_eq_nil_iff]
    intro r hr
    have := hS r hr
    simp only [Bool.and_eq_true, decide_eq_true_eq]
    tauto
  refine ⟨?_, ?_, ?_⟩
  · simp only [get_recent_activity, latestBy, hfadd, hfrem, hfclaim]
    rfl
  · have hdef : get_liquidity_timeseries db pool now lookback_days =
        if liquidityQueryRows db (pyLower pool) (now - lookback_days * 86400) = []
        then []
        else replayLiquidity 0 0
          (liquidityQueryRows db (pyLower pool) (now - lookback_days * 86400)) := rfl
    rw [hdef, if_pos]
    rw [liquidityQueryRows, hfliq]
    rfl
  · have hdef : (get_swap_volume_timeseries oracle cache db pool token0_address
        token1_address now lookback_days) =
        if swapQueryRows db (pyLower pool) (now - lookback_days * 86400) = []
        then ([], cache)
        else (get_swap_volume_timeseries oracle cache db pool token0_address
          token1_address now lookback_days) := by
      rw [get_swap_volume_timeseries]
      split
      · rfl
      · rfl
    rw [hdef]
    rw [swapQueryRows, hfswap]
    rfl

theorem empty_window_empty_results_witness :
    get_recent_activity dbOtherPool "P" 1000 48 =
        { pool_address := "P", latest_add := none, latest_remove := none,
          latest_claim := none } ∧
      get_liquidity_timeseries dbOtherPool "P" 1000 7 = [] ∧
      (get_swap_volume_timeseries (fun _ => some 6) [] dbOtherPool "P" "T0" "T1"
        1000 7).1 = [] :=
  empty_window_empty_results dbOtherPool "P" 1000 48 7 (fun _ => some 6) []
    "T0" "T1" (by decide) (by decide) (by decide) (by decide)

/-- C8: on the first call for a token the resolver queries the oracle and
caches the result (the successful value, or the fallback 18 on any
failure); every later call for that token answers from the cache and never
queries again, so the resolver is deterministic per token. -/
theorem decimals_resolver_cache_once (oracle : String → Option Nat)
    (cache : List (String × Nat)) (token_address : String)
    (h : cache.lookup token_address = none) :
    (∀ d, oracle token_address = some d →
      get_token_decimals oracle cache token_address =
        (d, (token_address, d) :: cache)) ∧
    (oracle token_address = none →
      get_token_decimals oracle cache token_address =
        (18, (token_address, 18) :: cache)) ∧
    (∀ oracle2 : String → Option Nat,
      get_token_decimals oracle2
          (get_token_decimals oracle cache token_address).2 token_address =
        ((get_token_decimals oracle cache token_address).1,
          (get_token_decimals oracle cache token_address).2)) := by
  refine ⟨?_, ?_, ?_⟩
  · intro d hd
    simp [get_token_decimals, h, hd]
  · intro hd
    simp [get_token_decimals, h, hd]
  · intro oracle2
    cases hd : oracle token_address with
    | none => simp [get_token_decimals, h, hd, List.lookup]
    | some d => simp [get_token_decimals, h, hd, List.lookup]

theorem decimals_resolver_cache_once_witness :
    (get_token_decimals (fun t => if t = "T0" then some 6 else none) [] "T0" =
        (6, [("T0", 6)]) ∧
      get_token_decimals (fun _ => some 9) [("T0", 6)] "T0" = (6, [("T0", 6)])) ∧
    get_token_decimals (fun t => if t = "T0" then some 6 else none) [] "T1" =
      (18, [("T1", 18)]) := by
  have h0 := decimals_resolver_cache_once
    (fun t => if t = "T0" then some 6 else none) [] "T0" rfl
  have h1 := decimals_resolver_cache_once
    (fun t => if t = "T0" then some 6 else none) [] "T1" rfl
  refine ⟨⟨h0.1 6 rfl, ?_⟩, h1.2.1 rfl⟩
  have h2 := h0.2.2 (fun _ => some 9)
  rw [h0.1 6 rfl] at h2
  exact h2

lemma groupByHourSum_times (records : List VolPoint) :
    (groupByHourSum records).map (fun p => p.time) =
      List.insertionSort (fun a b => a ≤ b) ((records.map (fun r => r.time)).dedup) := by
  rw [groupByHourSum, List.map_map]
  apply List.map_id''
  intro k
  rfl

lemma groupByHourSum_sorted (records : List VolPoint) :
    List.Sorted (fun a b : Nat => a < b)
      ((groupByHourSum records).map (fun p => p.time)) := by
  rw [groupByHourSum_times]
  apply List.Sorted.lt_of_le
  · exact List.sorted_insertionSort _ _
  · exact ((List.perm_insertionSort _ _).nodup_iff).mpr (List.nodup_dedup _)

lemma groupByHourSum_mem (records : List VolPoint) (k : Nat) :
    k ∈ (groupByHourSum records).map (fun p => p.time) ↔
      ∃ rec ∈ records, rec.time = k := by
  rw [groupByHourSum_times]
  rw [(List.perm_insertionSort _ _).mem_iff, List.mem_dedup, List.mem_map]

lemma groupByHourSum_read (records : List VolPoint) (i : Nat) (p : VolPoint)
    (h : (groupByHourSum records)[i]? = some p) :
    p.token0_volume = kahanSum ((records.filter (fun r => decide (r.time = p.time))).map
        (fun r => r.token0_volume)) ∧
      p.token1_volume = kahanSum ((records.filter (fun r => decide (r.time = p.time))).map
        (fun r => r.token1_volume)) := by
  have hgb : groupByHourSum records =
      (List.insertionSort (fun a b => a ≤ b) ((records.map (fun r => r.time)).dedup)).map
        (fun k =>
          { time := k
            token0_volume := kahanSum ((records.filter (fun r => r.time = k)).map
              (fun r => r.token0_volume))
            token1_volume := kahanSum ((records.filter (fun r => r.time = k)).map
              (fun r => r.token1_volume)) : VolPoint }) := rfl
  rw [hgb] at h
  rw [List.getElem?_eq_some_iff] at h
  obtain ⟨hlen, hval⟩ := h
  rw [List.getElem_map] at hval
  subst hval
  exact ⟨rfl, rfl⟩


/-- C9: a pool/window failure is not atomic: when the timestamp lookup
raises at the k-th Mint of the (single) window after k rows were inserted,
`main` catches the exception without rolling back, and the checkpoint
update that follows commits the open transaction — the run permanently
persists exactly the first k Mint rows of the window for that pool and
still advances the checkpoint to the window end. -/
theorem partial_window_rows_persist (ch : Chain) (p : String) (db : DB)
    (v k : Nat) (hv : db.indexer_state = some v) (hlt : v < ch.block_number)
    (hone : ch.block_number ≤ v + 4999)
    (hk : k < (rangeMints ch p v ch.block_number).length)
    (hfail : ch.timestamp
      (((rangeMints ch p v ch.block_number).get ⟨k, hk⟩).blockNumber) = none)
    (hpre : ∀ j, (hj : j < k) →
      (ch.timestamp (((rangeMints ch p v ch.block_number).get
        ⟨j, Nat.lt_trans hj hk⟩).blockNumber)).isSome) :
    mainRun ch [p] db =
      { pool_liquidity_events := db.pool_liquidity_events ++
          ((rangeMints ch p v ch.block_number).take k).map (mkMint ch p)
        pool_swaps := db.pool_swaps
        pool_fee_claims := db.pool_fee_claims
        indexer_state := some ch.block_number } := by
  have hws : windowStarts v ch.block_number 5000 = [v] := by
    have hn : (ch.block_number + 1 - v + 5000 - 1) / 5000 = 1 := by omega
    rw [windowStarts, hn]
    simp [List.range_succ]
  have he : min (v + 5000 - 1) ch.block_number = ch.block_number := by omega
  have hIPE : index_pool_events ch p v ch.block_number (Conn.connect db) =
      ({ Conn.connect db with
          pending_liq := [] ++
            ((rangeMints ch p v ch.block_number).take k).map (mkMint ch p) }, false) := by
    simp only [index_pool_events]
    rw [show getLogsInRange (fun l => l.blockNumber) (ch.mintLogs p) v ch.block_number =
      rangeMints ch p v ch.block_number from rfl]
    rw [insertLoop_fails_at ch (fun l => l.blockNumber)
      (fun c ev ts => { c with pending_liq := c.pending_liq ++ [mintRow p ev ts] })
      (rangeMints ch p v ch.block_number) k hk hfail hpre (Conn.connect db)]
    rw [foldl_ins_liq (fun ev => mintRow p ev (tsD ch ev.blockNumber))]
    rfl
  rw [mainRun_process ch [p] db v hv hlt, hws]
  rw [show ([v] : List Nat) = [] ++ [v] from rfl, processWindows_concat]
  rw [processWindows_nil]
  simp only [List.foldl_cons, List.foldl_nil]
  rw [he, hIPE]
  simp [update_last_block, Conn.commit, Conn.connect]

theorem partial_window_rows_persist_witness :
    mainRun chFail ["P"] dbCk0 =
      { pool_liquidity_events := dbCk0.pool_liquidity_events ++
          ((rangeMints chFail "P" 0 chFail.block_number).take 1).map (mkMint chFail "P")
        pool_swaps := dbCk0.pool_swaps
        pool_fee_claims := dbCk0.pool_fee_claims
        indexer_state := some chFail.block_number } :=
  partial_window_rows_persist chFail "P" dbCk0 0 1 rfl (by decide) (by decide)
    (by decide) (by decide) (by decide)

lemma liqView_index_pool_events_ext (ch : Chain) (q : String) (a b : Nat) (c : Conn) :
    ∃ ext, liqView (index_pool_events ch q a b c).1 = liqView c ++ ext := by
  obtain ⟨nm, nb, ns, nc, hL, _, _, _, _⟩ := index_pool_events_spec ch q a b c
  exact ⟨_, by rw [hL, List.append_assoc]⟩

lemma liqView_pools_fold_ext (ch : Chain) (pools : List String) (s e : Nat) (c : Conn) :
    ∃ ext, liqView (pools.foldl
        (fun c pool => (index_pool_events ch pool s e c).1) c) = liqView c ++ ext := by
  induction pools generalizing c with
  | nil => exact ⟨[], by simp⟩
  | cons q rest ih =>
    obtain ⟨e1, h1⟩ := liqView_index_pool_events_ext ch q s e c
    obtain ⟨e2, h2⟩ := ih (index_pool_events ch q s e c).1
    exact ⟨e1 ++ e2, by rw [List.foldl_cons, h2, h1, List.append_assoc]⟩

lemma liqView_processWindows_ext (ch : Chain) (pools : List String) (step : Nat)
    (starts : List Nat) (c : Conn) :
    ∃ ext, liqView (processWindows ch pools step starts c) = liqView c ++ ext := by
  induction starts generalizing c with
  | nil => exact ⟨[], by simp [processWindows_nil]⟩
  | cons s rest ih =>
    rw [show (s :: rest) = [s] ++ rest from rfl, processWindows_append]
    obtain ⟨e2, h2⟩ := ih (processWindows ch pools step [s] c)
    obtain ⟨e1, h1⟩ := liqView_pools_fold_ext ch pools s
      (min (s + step - 1) ch.block_number) c
    refine ⟨e1 ++ e2, ?_⟩
    rw [h2]
    have : liqView (processWindows ch pools step [s] c) =
        liqView c ++ e1 := by
      rw [show ([s] : List Nat) = [] ++ [s] from rfl, processWindows_concat,
        processWindows_nil, liqView_update_last_block]
      exact h1
    rw [this, List.append_assoc]

lemma count_le_of_ext {r : LiqRow} {l l' : List LiqRow}
    (h : ∃ ext, l' = l ++ ext) : l.count r ≤ l'.count r := by
  obtain ⟨ext, rfl⟩ := h
  rw [List.count_append]
  omega

/-- With every timestamp lookup succeeding, one `index_pool_events` call
appends exactly the full decoded Mint then Burn rows of the window to the
liquidity view. -/
lemma liqView_index_pool_events_total (ch : Chain) (q : String) (a b : Nat)
    (c : Conn) (htotal : ∀ bn, (ch.timestamp bn).isSome) :
    liqView (index_pool_events ch q a b c).1 =
      liqView c ++ (rangeMints ch q a b).map (mkMint ch q)
        ++ (rangeBurns ch q a b).map (mkBurn ch q) := by
  obtain ⟨nm, nb, ns, nc, hL, _, _, _, hfull⟩ := index_pool_events_spec ch q a b c
  obtain ⟨hm, hb, _, _⟩ := hfull (index_pool_events_success ch q a b c htotal)
  rw [hL, hm, hb, List.take_length, List.take_length]

lemma pools_fold_count_inc (ch : Chain) (pools : List String) (p : String)
    (s e : Nat) (c : Conn) (ev : MintBurnLog)
    (htotal : ∀ bn, (ch.timestamp bn).isSome) (hp : p ∈ pools)
    (hev : ev ∈ rangeMints ch p s e) :
    (liqView c).count (mkMint ch p ev) + 1 ≤
      (liqView (pools.foldl
        (fun c pool => (index_pool_events ch pool s e c).1) c)).count
          (mkMint ch p ev) := by
  obtain ⟨l1, l2, rfl⟩ := List.append_of_mem hp
  rw [List.foldl_append, List.foldl_cons]
  have h1 : (liqView c).count (mkMint ch p ev) ≤
      (liqView (l1.foldl (fun c pool => (index_pool_events ch pool s e c).1) c)).count
        (mkMint ch p ev) :=
    count_le_of_ext (liqView_pools_fold_ext ch l1 s e c)
  have h2 := liqView_index_pool_events_total ch p s e
    (l1.foldl (fun c pool => (index_pool_events ch pool s e c).1) c) htotal
  have h3 : (liqView (l1.foldl (fun c pool => (index_pool_events ch pool s e c).1) c)).count
        (mkMint ch p ev) + 1 ≤
      (liqView (index_pool_events ch p s e
        (l1.foldl (fun c pool => (index_pool_events ch pool s e c).1) c)).1).count
          (mkMint ch p ev) := by
    rw [h2, List.count_append, List.count_append]
    have hmem : mkMint ch p ev ∈ (rangeMints ch p s e).map (mkMint ch p) :=
      List.mem_map_of_mem _ hev
    have := List.one_le_count_iff.mpr hmem
    omega
  have h4 : (liqView (index_pool_events ch p s e
        (l1.foldl (fun c pool => (index_pool_events ch pool s e c).1) c)).1).count
          (mkMint ch p ev) ≤
      (liqView (l2.foldl (fun c pool => (index_pool_events ch pool s e c).1)
        (index_pool_events ch p s e
          (l1.foldl (fun c pool => (index_pool_events ch pool s e c).1) c)).1)).count
            (mkMint ch p ev) :=
    count_le_of_ext (liqView_pools_fold_ext ch l2 s e _)
  omega

lemma windowStarts_cover (f cb : Nat) (hf : f < cb) (blk : Nat)
    (h1 : f ≤ blk) (h2 : blk ≤ cb) :
    ∃ s ∈ windowStarts f cb 5000, s ≤ blk ∧ blk ≤ min (s + 5000 - 1) cb := by
  have hlen : (blk - f) / 5000 < (windowStarts f cb 5000).length := by
    rw [windowStarts_length]
    omega
  refine ⟨(windowStarts f cb 5000).get ⟨(blk - f) / 5000, hlen⟩, ?_, ?_⟩
  · rw [List.get_eq_getElem]
    exact List.getElem_mem hlen
  · rw [windowStarts_getElem]
    have := Nat.div_mul_le_self (blk - f) 5000
    have := Nat.lt_div_mul_add (show 0 < 5000 by omega) (a := blk - f)
    omega

lemma processWindows_count_inc (ch : Chain) (pools : List String) (p : String)
    (starts : List Nat) (s : Nat) (c : Conn) (ev : MintBurnLog)
    (htotal : ∀ bn, (ch.timestamp bn).isSome) (hp : p ∈ pools)
    (hs : s ∈ starts)
    (hev : ev ∈ rangeMints ch p s (min (s + 5000 - 1) ch.block_number)) :
    (liqView c).count (mkMint ch p ev) + 1 ≤
      (liqView (processWindows ch pools 5000 starts c)).count (mkMint ch p ev) := by
  obtain ⟨w1, w2, rfl⟩ := List.append_of_mem hs
  rw [show (w1 ++ s :: w2) = (w1 ++ [s]) ++ w2 by simp, processWindows_append]
  have hmono1 : (liqView c).count (mkMint ch p ev) ≤
      (liqView (processWindows ch pools 5000 w1 c)).count (mkMint ch p ev) :=
    count_le_of_ext (liqView_processWindows_ext ch pools 5000 w1 c)
  have hstep : (liqView (processWindows ch pools 5000 w1 c)).count (mkMint ch p ev) + 1 ≤
      (liqView (processWindows ch pools 5000 (w1 ++ [s]) c)).count (mkMint ch p ev) := by
    rw [processWindows_concat, liqView_update_last_block]
    exact pools_fold_count_inc ch pools p s (min (s + 5000 - 1) ch.block_number)
      (processWindows ch pools 5000 w1 c) ev htotal hp hev
  have hmono2 : (liqView (processWindows ch pools 5000 (w1 ++ [s]) c)).count
        (mkMint ch p ev) ≤
      (liqView (processWindows ch pools 5000 w2
        (processWindows ch pools 5000 (w1 ++ [s]) c))).count (mkMint ch p ev) :=
    count_le_of_ext (liqView_processWindows_ext ch pools 5000 w2 _)
  omega

lemma processWindows_pending_liq_nil (ch : Chain) (pools : List String) (step : Nat)
    (starts : List Nat) (h : starts ≠ []) (c : Conn) :
    (processWindows ch pools step starts c).pending_liq = [] := by
  rcases List.eq_nil_or_concat starts with rfl | ⟨xs, s, hcat⟩
  · exact absurd rfl h
  · rw [List.concat_eq_append] at hcat
    rw [hcat]
    exact (processWindows_last_state ch pools step xs s c).2.1

/-- Every run whose head exceeds the stored checkpoint re-fetches the
checkpoint block: the decoded row of any Mint at a block inside the run's
span is inserted once more. -/
lemma mainRun_count_inc (ch : Chain) (pools : List String) (p : String)
    (db : DB) (v : Nat) (ev : MintBurnLog)
    (hv : db.indexer_state = some v) (hlt : v < ch.block_number)
    (htotal : ∀ bn, (ch.timestamp bn).isSome) (hp : p ∈ pools)
    (hev : ev ∈ ch.mintLogs p) (hb1 : v ≤ ev.blockNumber)
    (hb2 : ev.blockNumber ≤ ch.block_number) :
    db.pool_liquidity_events.count (mkMint ch p ev) + 1 ≤
      (mainRun ch pools db).pool_liquidity_events.count (mkMint ch p ev) := by
  rw [mainRun_process ch pools db v hv hlt]
  obtain ⟨s, hsmem, hs1, hs2⟩ := windowStarts_cover v ch.block_number hlt
    ev.blockNumber hb1 hb2
  have hevr : ev ∈ rangeMints ch p s (min (s + 5000 - 1) ch.block_number) := by
    rw [rangeMints, getLogsInRange, List.mem_filter]
    refine ⟨hev, ?_⟩
    simp only [Bool.and_eq_true, decide_eq_true_eq]
    omega
  have hinc := processWindows_count_inc ch pools p
    (windowStarts v ch.block_number 5000) s (Conn.connect db) ev htotal hp hsmem hevr
  have hview : liqView (Conn.connect db) = db.pool_liquidity_events := by
    simp [liqView, Conn.connect]
  have hpend : (processWindows ch pools 5000 (windowStarts v ch.block_number 5000)
      (Conn.connect db)).pending_liq = [] :=
    processWindows_pending_liq_nil ch pools 5000 _ (windowStarts_ne_nil v _ hlt)
      (Conn.connect db)
  rw [hview] at hinc
  have : liqView (processWindows ch pools 5000 (windowStarts v ch.block_number 5000)
      (Conn.connect db)) =
      (processWindows ch pools 5000 (windowStarts v ch.block_number 5000)
        (Conn.connect db)).db.pool_liquidity_events := by
    rw [liqView, hpend, List.append_nil]
  rw [this] at hinc
  exact hinc

/-- C10: a run ends with the checkpoint at its head block, the next run's
first window starts at that same block (inclusive), and an event in the
checkpoint block is decoded and inserted again — two consecutive runs
leave at least two copies of its row beyond what the database held. -/
theorem checkpoint_block_rescanned_duplicates (ch : Chain) (h2 : Nat)
    (pools : List String) (p : String) (db : DB) (v : Nat) (ev : MintBurnLog)
    (hv : db.indexer_state = some v) (hv1 : v < ch.block_number)
    (h12 : ch.block_number < h2)
    (htotal : ∀ bn, (ch.timestamp bn).isSome)
    (hp : p ∈ pools) (hev : ev ∈ ch.mintLogs p)
    (hblk : ev.blockNumber = ch.block_number) :
    (mainRun ch pools db).indexer_state = some ch.block_number ∧
    (windowStarts ch.block_number h2 5000).head? = some ch.block_number ∧
    db.pool_liquidity_events.count (mkMint ch p ev) + 2 ≤
      (mainRun { ch with block_number := h2 } pools
        (mainRun ch pools db)).pool_liquidity_events.count (mkMint ch p ev) := by
  have hrun1state : (mainRun ch pools db).indexer_state = some ch.block_number :=
    mainRun_state_of_lt ch pools db v hv hv1
  refine ⟨hrun1state, ?_, ?_⟩
  · rw [List.head?_eq_getElem?]
    have hlen : 0 < (windowStarts ch.block_number h2 5000).length := by
      rw [windowStarts_length]
      omega
    rw [List.getElem?_eq_getElem hlen]
    have := windowStarts_getElem ch.block_number h2 5000 0 hlen
    rw [List.get_eq_getElem] at this
    rw [this]
    simp
  · have hinc1 := mainRun_count_inc ch pools p db v ev hv hv1 htotal hp hev
      (by omega) (by omega)
    have hinc2 := mainRun_count_inc { ch with block_number := h2 } pools p
      (mainRun ch pools db) ch.block_number ev hrun1state h12 htotal hp hev
      (by show ch.block_number ≤ ev.blockNumber; omega)
      (by show ev.blockNumber ≤ h2; omega)
    have hsame : mkMint { ch with block_number := h2 } p ev = mkMint ch p ev := rfl
    rw [hsame] at hinc2
    omega

theorem checkpoint_block_rescanned_duplicates_witness :
    (mainRun chDup ["P"] dbCk0).indexer_state = some chDup.block_number ∧
    (windowStarts chDup.block_number 6 5000).head? = some chDup.block_number ∧
    dbCk0.pool_liquidity_events.count (mkMint chDup "P" mintDup) + 2 ≤
      (mainRun { chDup with block_number := 6 } ["P"]
        (mainRun chDup ["P"] dbCk0)).pool_liquidity_events.count
          (mkMint chDup "P" mintDup) :=
  checkpoint_block_rescanned_duplicates chDup 6 ["P"] "P" dbCk0 0 mintDup rfl
    (by decide) (by decide) (fun _ => rfl) (by decide) (by decide) rfl

/-- C5 counterexample: with ascending per-kind log streams (a Burn at
block 10 and a Mint at block 20), one scan writes the liquidity table rows
in the order `[20, 10]` — `block_number` is not non-decreasing across
event kinds in insertion order. -/
theorem liq_insertion_order_counterexample :
    List.Pairwise (fun a b : MintBurnLog => a.blockNumber ≤ b.blockNumber)
        (chCross.mintLogs "P") ∧
      List.Pairwise (fun a b : MintBurnLog => a.blockNumber ≤ b.blockNumber)
        (chCross.burnLogs "P") ∧
      (mainRun chCross ["P"] dbCk0).pool_liquidity_events.map
        (fun r => r.block_number) = [20, 10] ∧
      ¬ List.Pairwise (fun a b : LiqRow => a.block_number ≤ b.block_number)
        ((mainRun chCross ["P"] dbCk0).pool_liquidity_events) := by
  refine ⟨?_, ?_, ?_, ?_⟩ <;> decide

lemma filter_map_of_true {α β : Type} (f : α → β) (p : β → Bool) (l : List α)
    (h : ∀ a, p (f a) = true) : (l.map f).filter p = l.map f := by
  rw [List.filter_map]
  congr 1
  rw [List.filter_eq_self]
  exact fun a _ => h a

lemma filter_map_of_false {α β : Type} (f : α → β) (p : β → Bool) (l : List α)
    (h : ∀ a, p (f a) = false) : (l.map f).filter p = [] := by
  rw [List.filter_map]
  rw [List.filter_eq_nil_iff.mpr (fun a _ => by simp [h a])]
  rfl

lemma ipe_filter_other (ch : Chain) (q p : String) (a b : Nat) (c : Conn)
    (hq : pyLower q ≠ pyLower p) :
    (∀ kind, liqFilterOf p kind (liqView (index_pool_events ch q a b c).1) =
      liqFilterOf p kind (liqView c)) ∧
    swapFilterOf p (swapView (index_pool_events ch q a b c).1) =
      swapFilterOf p (swapView c) ∧
    claimFilterOf p (claimView (index_pool_events ch q a b c).1) =
      claimFilterOf p (claimView c) := by
  obtain ⟨nm, nb, ns, nc, hL, hS, hC, _, _⟩ := index_pool_events_spec ch q a b c
  refine ⟨?_, ?_, ?_⟩
  · intro kind
    rw [liqFilterOf, hL, List.filter_append, List.filter_append]
    rw [filter_map_of_false _ _ _ (fun ev => by simp [mkMint, mintRow, hq])]
    rw [filter_map_of_false _ _ _ (fun ev => by simp [mkBurn, burnRow, hq])]
    simp [liqFilterOf]
  · rw [swapFilterOf, hS, List.filter_append]
    rw [filter_map_of_false _ _ _ (fun ev => by simp [mkSwap, swapRow, hq])]
    simp [swapFilterOf]
  · rw [claimFilterOf, hC, List.filter_append]
    rw [filter_map_of_false _ _ _ (fun ev => by simp [mkClaim, claimRow, hq])]
    simp [claimFilterOf]

lemma ipe_filter_self (ch : Chain) (p : String) (a b : Nat) (c : Conn) :
    ∃ nm nb ns nc,
      liqFilterOf p "ADD" (liqView (index_pool_events ch p a b c).1) =
        liqFilterOf p "ADD" (liqView c) ++
          ((rangeMints ch p a b).take nm).map (mkMint ch p) ∧
      liqFilterOf p "REMOVE" (liqView (index_pool_events ch p a b c).1) =
        liqFilterOf p "REMOVE" (liqView c) ++
          ((rangeBurns ch p a b).take nb).map (mkBurn ch p) ∧
      swapFilterOf p (swapView (index_pool_events ch p a b c).1) =
        swapFilterOf p (swapView c) ++
          ((rangeSwaps ch p a b).take ns).map (mkSwap ch p) ∧
      claimFilterOf p (claimView (index_pool_events ch p a b c).1) =
        claimFilterOf p (claimView c) ++
          ((rangeClaims ch p a b).take nc).map (mkClaim ch p) := by
  obtain ⟨nm, nb, ns, nc, hL, hS, hC, _, _⟩ := index_pool_events_spec ch p a b c
  refine ⟨nm, nb, ns, nc, ?_, ?_, ?_, ?_⟩
  · rw [liqFilterOf, hL, List.filter_append, List.filter_append]
    rw [filter_map_of_true _ _ _ (fun ev => by simp [mkMint, mintRow])]
    rw [filter_map_of_false _ _ _ (fun ev => by simp [mkBurn, burnRow])]
    simp [liqFilterOf]
  · rw [liqFilterOf, hL, List.filter_append, List.filter_append]
    rw [filter_map_of_false _ _ _ (fun ev => by simp [mkMint, mintRow])]
    rw [filter_map_of_true _ _ _ (fun ev => by simp [mkBurn, burnRow])]
    simp [liqFilterOf]
  · rw [swapFilterOf, hS, List.filter_append]
    rw [filter_map_of_true _ _ _ (fun ev => by simp [mkSwap, swapRow])]
    simp [swapFilterOf]
  · rw [claimFilterOf, hC, List.filter_append]
    rw [filter_map_of_true _ _ _ (fun ev => by simp [mkClaim, claimRow])]
    simp [claimFilterOf]

lemma pools_fold_filter_none (ch : Chain) (pools : List String) (p : String)
    (s e : Nat) (c : Conn) (h : ∀ q ∈ pools, pyLower q ≠ pyLower p) :
    (∀ kind, liqFilterOf p kind (liqView (pools.foldl
        (fun c pool => (index_pool_events ch pool s e c).1) c)) =
      liqFilterOf p kind (liqView c)) ∧
    swapFilterOf p (swapView (pools.foldl
        (fun c pool => (index_pool_events ch pool s e c).1) c)) =
      swapFilterOf p (swapView c) ∧
    claimFilterOf p (claimView (pools.foldl
        (fun c pool => (index_pool_events ch pool s e c).1) c)) =
      claimFilterOf p (claimView c) := by
  induction pools generalizing c with
  | nil => exact ⟨fun _ => rfl, rfl, rfl⟩
  | cons q rest ih =>
    obtain ⟨hL1, hS1, hC1⟩ := ipe_filter_other ch q p s e c
      (h q (List.mem_cons_self q rest))
    obtain ⟨hL2, hS2, hC2⟩ := ih (index_pool_events ch q s e c).1
      (fun q' hq' => h q' (List.mem_cons_of_mem q hq'))
    rw [List.foldl_cons]
    exact ⟨fun kind => (hL2 kind).trans (hL1 kind), hS2.trans hS1, hC2.trans hC1⟩

lemma pools_fold_filter (ch : Chain) (pools : List String) (p : String)
    (s e : Nat) (c : Conn)
    (hOnce : ∀ q ∈ pools, pyLower q = pyLower p → q = p)
    (hCount : pools.count p ≤ 1) :
    ∃ nm nb ns nc,
      liqFilterOf p "ADD" (liqView (pools.foldl
          (fun c pool => (index_pool_events ch pool s e c).1) c)) =
        liqFilterOf p "ADD" (liqView c) ++
          ((rangeMints ch p s e).take nm).map (mkMint ch p) ∧
      liqFilterOf p "REMOVE" (liqView (pools.foldl
          (fun c pool => (index_pool_events ch pool s e c).1) c)) =
        liqFilterOf p "REMOVE" (liqView c) ++
          ((rangeBurns ch p s e).take nb).map (mkBurn ch p) ∧
      swapFilterOf p (swapView (pools.foldl
          (fun c pool => (index_pool_events ch pool s e c).1) c)) =
        swapFilterOf p (swapView c) ++
          ((rangeSwaps ch p s e).take ns).map (mkSwap ch p) ∧
      claimFilterOf p (claimView (pools.foldl
          (fun c pool => (index_pool_events ch pool s e c).1) c)) =
        claimFilterOf p (claimView c) ++
          ((rangeClaims ch p s e).take nc).map (mkClaim ch p) := by
  induction pools generalizing c with
  | nil =>
    exact ⟨0, 0, 0, 0, by simp, by simp, by simp, by simp⟩
  | cons q rest ih =>
    rw [List.foldl_cons]
    by_cases hq : pyLower q = pyLower p
    · have hqp : q = p := hOnce q (List.mem_cons_self q rest) hq
      subst hqp
      have hnotin : q ∉ rest := by
        intro hmem
        have := List.count_cons_self q rest
        have hpos := List.one_le_count_iff.mpr hmem
        omega
      have hrest : ∀ q' ∈ rest, pyLower q' ≠ pyLower q := by
        intro q' hq' heq
        exact hnotin ((hOnce q' (List.mem_cons_of_mem q hq') heq) ▸ hq')
      obtain ⟨nm, nb, ns, nc, h1, h2, h3, h4⟩ := ipe_filter_self ch q s e c
      obtain ⟨hL2, hS2, hC2⟩ := pools_fold_filter_none ch rest q s e
        (index_pool_events ch q s e c).1 hrest
      exact ⟨nm, nb, ns, nc, (hL2 "ADD").trans h1, (hL2 "REMOVE").trans h2,
        hS2.trans h3, hC2.trans h4⟩
    · obtain ⟨hL1, hS1, hC1⟩ := ipe_filter_other ch q p s e c hq
      have hqp : q ≠ p := fun h => hq (h ▸ rfl)
      obtain ⟨nm, nb, ns, nc, h1, h2, h3, h4⟩ := ih (index_pool_events ch q s e c).1
        (fun q' hq' heq => hOnce q' (List.mem_cons_of_mem q hq') heq)
        (by rw [List.count_cons_of_ne (by simpa using hqp.symm)] at hCount; exact hCount)
      refine ⟨nm, nb, ns, nc, ?_, ?_, ?_, ?_⟩
      · rw [h1, hL1]
      · rw [h2, hL1]
      · rw [h3, hS1]
      · rw [h4, hC1]

lemma chunk_sorted_bounded {L R : Type} (blockOfL : L → Nat) (bnR : R → Nat)
    (mk : L → R) (hmk : ∀ ev, bnR (mk ev) = blockOfL ev) (stream : List L)
    (hsorted : List.Pairwise (fun x y => blockOfL x ≤ blockOfL y) stream)
    (a b n : Nat) :
    List.Pairwise (fun x y : R => bnR x ≤ bnR y)
        (((getLogsInRange blockOfL stream a b).take n).map mk) ∧
      ∀ r ∈ ((getLogsInRange blockOfL stream a b).take n).map mk,
        a ≤ bnR r ∧ bnR r ≤ b := by
  constructor
  · rw [List.pairwise_map]
    refine List.Pairwise.imp ?_
      (((hsorted.filter _).sublist (List.take_sublist n _)))
    intro x y hxy
    rw [hmk, hmk]
    exact hxy
  · intro r hr
    obtain ⟨ev, hev, rfl⟩ := List.mem_map.mp hr
    have hev' : ev ∈ getLogsInRange blockOfL stream a b :=
      (List.take_sublist n _).mem hev
    rw [getLogsInRange] at hev'
    have := (List.mem_filter.mp hev').2
    simp only [Bool.and_eq_true, decide_eq_true_eq] at this
    rw [hmk]
    exact this

lemma processWindows_filter_sorted (ch : Chain) (pools : List String) (p : String)
    (starts : List Nat) (c : Conn)
    (hsep : List.Pairwise (fun x y => x + 5000 ≤ y) starts)
    (hOnce : ∀ q ∈ pools, pyLower q = pyLower p → q = p)
    (hCount : pools.count p ≤ 1)
    (hmp : List.Pairwise (fun x y => x.blockNumber ≤ y.blockNumber) (ch.mintLogs p))
    (hbp : List.Pairwise (fun x y => x.blockNumber ≤ y.blockNumber) (ch.burnLogs p))
    (hsp : List.Pairwise (fun x y => x.blockNumber ≤ y.blockNumber) (ch.swapLogs p))
    (hcp : List.Pairwise (fun x y => x.blockNumber ≤ y.blockNumber) (ch.claimLogs p)) :
    ∃ A R S C,
      liqFilterOf p "ADD" (liqView (processWindows ch pools 5000 starts c)) =
        liqFilterOf p "ADD" (liqView c) ++ A ∧
      liqFilterOf p "REMOVE" (liqView (processWindows ch pools 5000 starts c)) =
        liqFilterOf p "REMOVE" (liqView c) ++ R ∧
      swapFilterOf p (swapView (processWindows ch pools 5000 starts c)) =
        swapFilterOf p (swapView c) ++ S ∧
      claimFilterOf p (claimView (processWindows ch pools 5000 starts c)) =
        claimFilterOf p (claimView c) ++ C ∧
      (List.Pairwise (fun x y : LiqRow => x.block_number ≤ y.block_number) A ∧
        ∀ r ∈ A, ∃ s ∈ starts, s ≤ r.block_number ∧ r.block_number ≤ s + 4999) ∧
      (List.Pairwise (fun x y : LiqRow => x.block_number ≤ y.block_number) R ∧
        ∀ r ∈ R, ∃ s ∈ starts, s ≤ r.block_number ∧ r.block_number ≤ s + 4999) ∧
      (List.Pairwise (fun x y : SwapRow => x.block_number ≤ y.block_number) S ∧
        ∀ r ∈ S, ∃ s ∈ starts, s ≤ r.block_number ∧ r.block_number ≤ s + 4999) ∧
      (List.Pairwise (fun x y : ClaimRow => x.block_number ≤ y.block_number) C ∧
        ∀ r ∈ C, ∃ s ∈ starts, s ≤ r.block_number ∧ r.block_number ≤ s + 4999) := by
  induction starts generalizing c with
  | nil =>
    exact ⟨[], [], [], [], by simp [processWindows_nil], by simp [processWindows_nil],
      by simp [processWindows_nil], by simp [processWindows_nil],
      ⟨List.Pairwise.nil, by simp⟩, ⟨List.Pairwise.nil, by simp⟩,
      ⟨List.Pairwise.nil, by simp⟩, ⟨List.Pairwise.nil, by simp⟩⟩
  | cons s rest ih =>
    rw [show (s :: rest) = [s] ++ rest from rfl, processWindows_append]
    have hse : min (s + 5000 - 1) ch.block_number ≤ s + 4999 := by omega
    -- the single window [s]
    obtain ⟨nm, nb, ns, nc, w1, w2, w3, w4⟩ := pools_fold_filter ch pools p s
      (min (s + 5000 - 1) ch.block_number) c hOnce hCount
    have hwin : processWindows ch pools 5000 [s] c =
        update_last_block
          (pools.foldl (fun c pool => (index_pool_events ch pool s
            (min (s + 5000 - 1) ch.block_number) c).1) c)
          (min (s + 5000 - 1) ch.block_number) := by
      rw [show ([s] : List Nat) = [] ++ [s] from rfl, processWindows_concat,
        processWindows_nil]
    obtain ⟨cA, cAb⟩ := chunk_sorted_bounded (fun l => l.blockNumber)
      (fun r : LiqRow => r.block_number) (mkMint ch p) (fun _ => rfl)
      (ch.mintLogs p) hmp s (min (s + 5000 - 1) ch.block_number) nm
    obtain ⟨cR, cRb⟩ := chunk_sorted_bounded (fun l => l.blockNumber)
      (fun r : LiqRow => r.block_number) (mkBurn ch p) (fun _ => rfl)
      (ch.burnLogs p) hbp s (min (s + 5000 - 1) ch.block_number) nb
    obtain ⟨cS, cSb⟩ := chunk_sorted_bounded (fun l => l.blockNumber)
      (fun r : SwapRow => r.block_number) (mkSwap ch p) (fun _ => rfl)
      (ch.swapLogs p) hsp s (min (s + 5000 - 1) ch.block_number) ns
    obtain ⟨cC, cCb⟩ := chunk_sorted_bounded (fun l => l.blockNumber)
      (fun r : ClaimRow => r.block_number) (mkClaim ch p) (fun _ => rfl)
      (ch.claimLogs p) hcp s (min (s + 5000 - 1) ch.block_number) nc
    obtain ⟨A2, R2, S2, C2, i1, i2, i3, i4, iA, iR, iS, iC⟩ :=
      ih (processWindows ch pools 5000 [s] c)
        (List.Pairwise.sublist (List.sublist_cons_self s rest) hsep)
    have hsepHead : ∀ s' ∈ rest, s + 5000 ≤ s' := (List.pairwise_cons.mp hsep).1
    have e1 : liqFilterOf p "ADD" (liqView (processWindows ch pools 5000 [s] c)) =
        liqFilterOf p "ADD" (liqView c) ++
          ((rangeMints ch p s (min (s + 5000 - 1) ch.block_number)).take nm).map
            (mkMint ch p) := by
      rw [hwin, liqView_update_last_block]
      exact w1
    have e2 : liqFilterOf p "REMOVE" (liqView (processWindows ch pools 5000 [s] c)) =
        liqFilterOf p "REMOVE" (liqView c) ++
          ((rangeBurns ch p s (min (s + 5000 - 1) ch.block_number)).take nb).map
            (mkBurn ch p) := by
      rw [hwin, liqView_update_last_block]
      exact w2
    have e3 : swapFilterOf p (swapView (processWindows ch pools 5000 [s] c)) =
        swapFilterOf p (swapView c) ++
          ((rangeSwaps ch p s (min (s + 5000 - 1) ch.block_number)).take ns).map
            (mkSwap ch p) := by
      rw [hwin, swapView_update_last_block]
      exact w3
    have e4 : claimFilterOf p (claimView (processWindows ch pools 5000 [s] c)) =
        claimFilterOf p (claimView c) ++
          ((rangeClaims ch p s (min (s + 5000 - 1) ch.block_number)).take nc).map
            (mkClaim ch p) := by
      rw [hwin, claimView_update_last_block]
      exact w4
    refine ⟨((rangeMints ch p s (min (s + 5000 - 1) ch.block_number)).take nm).map
        (mkMint ch p) ++ A2,
      ((rangeBurns ch p s (min (s + 5000 - 1) ch.block_number)).take nb).map
        (mkBurn ch p) ++ R2,
      ((rangeSwaps ch p s (min (s + 5000 - 1) ch.block_number)).take ns).map
        (mkSwap ch p) ++ S2,
      ((rangeClaims ch p s (min (s + 5000 - 1) ch.block_number)).take nc).map
        (mkClaim ch p) ++ C2,
      by rw [i1, e1, List.append_assoc], by rw [i2, e2, List.append_assoc],
      by rw [i3, e3, List.append_assoc], by rw [i4, e4, List.append_assoc],
      ?_, ?_, ?_, ?_⟩
    · constructor
      · rw [List.pairwise_append]
        refine ⟨cA, iA.1, ?_⟩
        intro x hx y hy
        obtain ⟨s', hs', hy1, _⟩ := iA.2 y hy
        have := (cAb x hx).2
        have := hsepHead s' hs'
        omega
      · intro r hr
        rcases List.mem_append.mp hr with h | h
        · exact ⟨s, List.mem_cons_self s rest, (cAb r h).1, by
            have := (cAb r h).2
            omega⟩
        · obtain ⟨s', hs', h1, h2⟩ := iA.2 r h
          exact ⟨s', List.mem_cons_of_mem s hs', h1, h2⟩
    · constructor
      · rw [List.pairwise_append]
        refine ⟨cR, iR.1, ?_⟩
        intro x hx y hy
        obtain ⟨s', hs', hy1, _⟩ := iR.2 y hy
        have := (cRb x hx).2
        have := hsepHead s' hs'
        omega
      · intro r hr
        rcases List.mem_append.mp hr with h | h
        · exact ⟨s, List.mem_cons_self s rest, (cRb r h).1, by
            have := (cRb r h).2
            omega⟩
        · obtain ⟨s', hs', h1, h2⟩ := iR.2 r h
          exact ⟨s', List.mem_cons_of_mem s hs', h1, h2⟩
    · constructor
      · rw [List.pairwise_append]
        refine ⟨cS, iS.1, ?_⟩
        intro x hx y hy
        obtain ⟨s', hs', hy1, _⟩ := iS.2 y hy
        have := (cSb x hx).2
        have := hsepHead s' hs'
        omega
      · intro r hr
        rcases List.mem_append.mp hr with h | h
        · exact ⟨s, List.mem_cons_self s rest, (cSb r h).1, by
            have := (cSb r h).2
            omega⟩
        · obtain ⟨s', hs', h1, h2⟩ := iS.2 r h
          exact ⟨s', List.mem_cons_of_mem s hs', h1, h2⟩
    · constructor
      · rw [List.pairwise_append]
        refine ⟨cC, iC.1, ?_⟩
        intro x hx y hy
        obtain ⟨s', hs', hy1, _⟩ := iC.2 y hy
        have := (cCb x hx).2
        have := hsepHead s' hs'
        omega
      · intro r hr
        rcases List.mem_append.mp hr with h | h
        · exact ⟨s, List.mem_cons_self s rest, (cCb r h).1, by
            have := (cCb r h).2
            omega⟩
        · obtain ⟨s', hs', h1, h2⟩ := iC.2 r h
          exact ⟨s', List.mem_cons_of_mem s hs', h1, h2⟩

lemma windowStarts_sep (f cb st : Nat) :
    List.Pairwise (fun x y => x + st ≤ y) (windowStarts f cb st) := by
  rw [windowStarts, List.pairwise_map]
  refine List.Pairwise.imp ?_ (List.pairwise_lt_range _)
  intro i j hij
  have : i + 1 ≤ j := hij
  calc f + i * st + st = f + (i + 1) * st := by ring
  _ ≤ f + j * st := by
      have : (i + 1) * st ≤ j * st := Nat.mul_le_mul_right st this
      omega

lemma processWindows_pending_nil (ch : Chain) (pools : List String) (step : Nat)
    (starts : List Nat) (h : starts ≠ []) (c : Conn) :
    (processWindows ch pools step starts c).pending_liq = [] ∧
      (processWindows ch pools step starts c).pending_swaps = [] ∧
      (processWindows ch pools step starts c).pending_claims = [] := by
  rcases List.eq_nil_or_concat starts with rfl | ⟨xs, s, hcat⟩
  · exact absurd rfl h
  · rw [List.concat_eq_append] at hcat
    rw [hcat]
    obtain ⟨_, h1, h2, h3, _⟩ := processWindows_last_state ch pools step xs s c
    exact ⟨h1, h2, h3⟩

lemma processWindows_tables_filter_sorted (ch : Chain) (pools : List String)
    (p : String) (db : DB) (f : Nat) (hf : f < ch.block_number) (c : Conn)
    (hcl : liqView c = db.pool_liquidity_events)
    (hcs : swapView c = db.pool_swaps)
    (hcc : claimView c = db.pool_fee_claims)
    (hOnce : ∀ q ∈ pools, pyLower q = pyLower p → q = p)
    (hCount : pools.count p ≤ 1)
    (hmp : List.Pairwise (fun x y => x.blockNumber ≤ y.blockNumber) (ch.mintLogs p))
    (hbp : List.Pairwise (fun x y => x.blockNumber ≤ y.blockNumber) (ch.burnLogs p))
    (hsp : List.Pairwise (fun x y => x.blockNumber ≤ y.blockNumber) (ch.swapLogs p))
    (hcp : List.Pairwise (fun x y => x.blockNumber ≤ y.blockNumber) (ch.claimLogs p)) :
    ∃ A R S C,
      liqFilterOf p "ADD" (processWindows ch pools 5000
          (windowStarts f ch.block_number 5000) c).db.pool_liquidity_events =
        liqFilterOf p "ADD" db.pool_liquidity_events ++ A ∧
      liqFilterOf p "REMOVE" (processWindows ch pools 5000
          (windowStarts f ch.block_number 5000) c).db.pool_liquidity_events =
        liqFilterOf p "REMOVE" db.pool_liquidity_events ++ R ∧
      swapFilterOf p (processWindows ch pools 5000
          (windowStarts f ch.block_number 5000) c).db.pool_swaps =
        swapFilterOf p db.pool_swaps ++ S ∧
      claimFilterOf p (processWindows ch pools 5000
          (windowStarts f ch.block_number 5000) c).db.pool_fee_claims =
        claimFilterOf p db.pool_fee_claims ++ C ∧
      List.Pairwise (fun x y : LiqRow => x.block_number ≤ y.block_number) A ∧
      List.Pairwise (fun x y : LiqRow => x.block_number ≤ y.block_number) R ∧
      List.Pairwise (fun x y : SwapRow => x.block_number ≤ y.block_number) S ∧
      List.Pairwise (fun x y : ClaimRow => x.block_number ≤ y.block_number) C := by
  obtain ⟨A, R, S, C, h1, h2, h3, h4, hA, hR, hS, hC⟩ :=
    processWindows_filter_sorted ch pools p (windowStarts f ch.block_number 5000) c
      (windowStarts_sep f ch.block_number 5000) hOnce hCount hmp hbp hsp hcp
  obtain ⟨p1, p2, p3⟩ := processWindows_pending_nil ch pools 5000
    (windowStarts f ch.block_number 5000) (windowStarts_ne_nil f _ hf) c
  have tl : (processWindows ch pools 5000 (windowStarts f ch.block_number 5000)
      c).db.pool_liquidity_events =
      liqView (processWindows ch pools 5000 (windowStarts f ch.block_number 5000) c) := by
    rw [liqView, p1, List.append_nil]
  have ts : (processWindows ch pools 5000 (windowStarts f ch.block_number 5000)
      c).db.pool_swaps =
      swapView (processWindows ch pools 5000 (windowStarts f ch.block_number 5000) c) := by
    rw [swapView, p2, List.append_nil]
  have tc : (processWindows ch pools 5000 (windowStarts f ch.block_number 5000)
      c).db.pool_fee_claims =
      claimView (processWindows ch pools 5000 (windowStarts f ch.block_number 5000) c) := by
    rw [claimView, p3, List.append_nil]
  rw [hcl] at h1 h2
  rw [hcs] at h3
  rw [hcc] at h4
  exact ⟨A, R, S, C, by rw [tl, h1], by rw [tl, h2], by rw [ts, h3], by rw [tc, h4],
    hA.1, hR.1, hS.1, hC.1⟩

/-- C5 (amended): within a single scan, for a fixed pool that is indexed
once per window and whose logs arrive in ascending block order per kind,
the scan appends to each table — per event kind — rows with non-decreasing
`block_number`: the pool's ADD rows and REMOVE rows are each separately
ascending in the liquidity table (all window ADDs are written before the
window's REMOVEs, so the combined order may decrease across kinds), and
the swap and fee-claim tables are ascending outright. -/
theorem scan_appends_per_kind_ascending (ch : Chain) (pools : List String)
    (p : String) (db : DB)
    (hOnce : ∀ q ∈ pools, pyLower q = pyLower p → q = p)
    (hCount : pools.count p ≤ 1)
    (hmp : List.Pairwise (fun x y => x.blockNumber ≤ y.blockNumber) (ch.mintLogs p))
    (hbp : List.Pairwise (fun x y => x.blockNumber ≤ y.blockNumber) (ch.burnLogs p))
    (hsp : List.Pairwise (fun x y => x.blockNumber ≤ y.blockNumber) (ch.swapLogs p))
    (hcp : List.Pairwise (fun x y => x.blockNumber ≤ y.blockNumber) (ch.claimLogs p)) :
    ∃ A R S C,
      liqFilterOf p "ADD" (mainRun ch pools db).pool_liquidity_events =
        liqFilterOf p "ADD" db.pool_liquidity_events ++ A ∧
      liqFilterOf p "REMOVE" (mainRun ch pools db).pool_liquidity_events =
        liqFilterOf p "REMOVE" db.pool_liquidity_events ++ R ∧
      swapFilterOf p (mainRun ch pools db).pool_swaps =
        swapFilterOf p db.pool_swaps ++ S ∧
      claimFilterOf p (mainRun ch pools db).pool_fee_claims =
        claimFilterOf p db.pool_fee_claims ++ C ∧
      List.Pairwise (fun x y : LiqRow => x.block_number ≤ y.block_number) A ∧
      List.Pairwise (fun x y : LiqRow => x.block_number ≤ y.block_number) R ∧
      List.Pairwise (fun x y : SwapRow => x.block_number ≤ y.block_number) S ∧
      List.Pairwise (fun x y : ClaimRow => x.block_number ≤ y.block_number) C := by
  cases hdb : db.indexer_state with
  | some v =>
    rcases le_or_lt ch.block_number v with hle | hlt
    · rw [mainRun_noop ch pools db v hdb hle]
      exact ⟨[], [], [], [], by simp, by simp, by simp, by simp,
        List.Pairwise.nil, List.Pairwise.nil, List.Pairwise.nil, List.Pairwise.nil⟩
    · rw [mainRun_process ch pools db v hdb hlt]
      exact processWindows_tables_filter_sorted ch pools p db v hlt
        (Conn.connect db) (by simp [liqView, Conn.connect])
        (by simp [swapView, Conn.connect]) (by simp [claimView, Conn.connect])
        hOnce hCount hmp hbp hsp hcp
  | none =>
    rw [mainRun_none_eq ch pools db hdb]
    rcases le_or_lt ch.block_number (seedBlock ch) with hle | hlt
    · rw [if_pos hle]
      exact ⟨[], [], [], [], by simp, by simp, by simp, by simp,
        List.Pairwise.nil, List.Pairwise.nil, List.Pairwise.nil, List.Pairwise.nil⟩
    · rw [if_neg (Nat.not_le.mpr hlt)]
      exact processWindows_tables_filter_sorted ch pools p db (seedBlock ch) hlt
        (Conn.commit { Conn.connect db with pending_state := some (seedBlock ch) })
        (by simp [liqView, Conn.commit, Conn.connect])
        (by simp [swapView, Conn.commit, Conn.connect])
        (by simp [claimView, Conn.commit, Conn.connect])
        hOnce hCount hmp hbp hsp hcp

theorem scan_appends_per_kind_ascending_witness :
    ∃ A R S C,
      liqFilterOf "P" "ADD" (mainRun chCross ["P"] dbCk0).pool_liquidity_events =
        liqFilterOf "P" "ADD" dbCk0.pool_liquidity_events ++ A ∧
      liqFilterOf "P" "REMOVE" (mainRun chCross ["P"] dbCk0).pool_liquidity_events =
        liqFilterOf "P" "REMOVE" dbCk0.pool_liquidity_events ++ R ∧
      swapFilterOf "P" (mainRun chCross ["P"] dbCk0).pool_swaps =
        swapFilterOf "P" dbCk0.pool_swaps ++ S ∧
      claimFilterOf "P" (mainRun chCross ["P"] dbCk0).pool_fee_claims =
        claimFilterOf "P" dbCk0.pool_fee_claims ++ C ∧
      List.Pairwise (fun x y : LiqRow => x.block_number ≤ y.block_number) A ∧
      List.Pairwise (fun x y : LiqRow => x.block_number ≤ y.block_number) R ∧
      List.Pairwise (fun x y : SwapRow => x.block_number ≤ y.block_number) S ∧
      List.Pairwise (fun x y : ClaimRow => x.block_number ≤ y.block_number) C :=
  scan_appends_per_kind_ascending chCross ["P"] "P" dbCk0 (by decide) (by decide)
    (by decide) (by decide) (by decide) (by decide)

lemma roundPos_grid (q : ℚ) (hq : 0 < q) :
    ∃ n : ℤ, 2 ^ 52 ≤ n ∧ n ≤ 2 ^ 53 ∧
      roundPos q = (n : ℚ) * 2 ^ (Int.log 2 q - 52) := by
  have h2 : (0:ℚ) < 2 := by norm_num
  have hul : (0:ℚ) < 2 ^ (Int.log 2 q - 52) := zpow_pos h2 _
  have hlow : (2:ℚ) ^ Int.log 2 q ≤ q := Int.zpow_log_le_self (by norm_num) hq
  have hhigh : q < 2 ^ (Int.log 2 q + 1) := Int.lt_zpow_succ_log_self (by norm_num) q
  have hmul : ((2 ^ 52 : ℤ) : ℚ) * 2 ^ (Int.log 2 q - 52) = 2 ^ Int.log 2 q := by
    have hc : ((2 ^ 52 : ℤ) : ℚ) = (2 : ℚ) ^ (52 : ℤ) := by norm_num
    rw [hc, ← zpow_add₀ (by norm_num : (2:ℚ) ≠ 0)]
    congr 1
    ring
  have hmul' : ((2 ^ 53 : ℤ) : ℚ) * 2 ^ (Int.log 2 q - 52) = 2 ^ (Int.log 2 q + 1) := by
    have hc : ((2 ^ 53 : ℤ) : ℚ) = (2 : ℚ) ^ (53 : ℤ) := by norm_num
    rw [hc, ← zpow_add₀ (by norm_num : (2:ℚ) ≠ 0)]
    congr 1
    ring
  have hmlow : (2 ^ 52 : ℤ) ≤ ⌊q / 2 ^ (Int.log 2 q - 52)⌋ := by
    rw [Int.le_floor, le_div_iff₀ hul]
    rw [hmul]
    exact hlow
  have hmhigh : ⌊q / 2 ^ (Int.log 2 q - 52)⌋ < 2 ^ 53 := by
    have hq' : q / 2 ^ (Int.log 2 q - 52) < ((2 ^ 53 : ℤ) : ℚ) := by
      rw [div_lt_iff₀ hul, hmul']
      exact hhigh
    exact Int.floor_lt.mpr hq'
  rw [roundPos]
  split
  · exact ⟨_, by omega, by omega, rfl⟩
  · split
    · exact ⟨_, by omega, by omega, rfl⟩
    · split
      · exact ⟨_, by omega, by omega, rfl⟩
      · exact ⟨_, by omega, by omega, rfl⟩

lemma roundPos_dyadic (n k : ℤ) (h1 : 2 ^ 52 ≤ n) (h2 : n ≤ 2 ^ 53) :
    roundPos ((n : ℚ) * 2 ^ k) = (n : ℚ) * 2 ^ k := by
  have h2q : (0:ℚ) < 2 := by norm_num
  have h2ne : (2:ℚ) ≠ 0 := by norm_num
  have hq : (0:ℚ) < (n : ℚ) * 2 ^ k :=
    mul_pos (by exact_mod_cast lt_of_lt_of_le (by norm_num) h1) (zpow_pos h2q k)
  rcases lt_or_eq_of_le h2 with hlt | heq
  · have he : Int.log 2 ((n : ℚ) * 2 ^ k) = k + 52 := by
      have hlow : (2:ℚ) ^ (k + 52) ≤ (n : ℚ) * 2 ^ k := by
        have : ((2 ^ 52 : ℤ) : ℚ) ≤ (n : ℚ) := by exact_mod_cast h1
        calc (2:ℚ) ^ (k + 52) = ((2 ^ 52 : ℤ) : ℚ) * 2 ^ k := by
              have hc : ((2 ^ 52 : ℤ) : ℚ) = (2 : ℚ) ^ (52 : ℤ) := by norm_num
              rw [hc, ← zpow_add₀ h2ne]
              congr 1
              ring
        _ ≤ (n : ℚ) * 2 ^ k := by
              exact mul_le_mul_of_nonneg_right this (le_of_lt (zpow_pos h2q k))
      have hhigh : (n : ℚ) * 2 ^ k < 2 ^ (k + 53) := by
        have : (n : ℚ) < ((2 ^ 53 : ℤ) : ℚ) := by exact_mod_cast hlt
        calc (n : ℚ) * 2 ^ k < ((2 ^ 53 : ℤ) : ℚ) * 2 ^ k := by
              exact mul_lt_mul_of_pos_right this (zpow_pos h2q k)
        _ = 2 ^ (k + 53) := by
              have hc : ((2 ^ 53 : ℤ) : ℚ) = (2 : ℚ) ^ (53 : ℤ) := by norm_num
              rw [hc, ← zpow_add₀ h2ne]
              congr 1
              ring
      have hA : (2:ℚ) ^ Int.log 2 ((n : ℚ) * 2 ^ k) ≤ (n : ℚ) * 2 ^ k :=
        Int.zpow_log_le_self (by norm_num) hq
      have hB : (n : ℚ) * 2 ^ k < 2 ^ (Int.log 2 ((n : ℚ) * 2 ^ k) + 1) :=
        Int.lt_zpow_succ_log_self (by norm_num) _
      have c1 : (2:ℚ) ^ Int.log 2 ((n : ℚ) * 2 ^ k) < 2 ^ (k + 53) :=
        lt_of_le_of_lt hA hhigh
      have c2 : (2:ℚ) ^ (k + 52) < 2 ^ (Int.log 2 ((n : ℚ) * 2 ^ k) + 1) :=
        lt_of_le_of_lt hlow hB
      rw [zpow_lt_zpow_iff_right₀ (by norm_num : (1:ℚ) < 2)] at c1 c2
      omega
    rw [roundPos]
    simp only [he]
    have hulp : (k + 52) - 52 = k := by ring
    rw [hulp]
    have hdiv : (n : ℚ) * 2 ^ k / 2 ^ k = (n : ℚ) := by
      field_simp
    rw [hdiv, Int.floor_intCast]
    simp
  · have hqe : (n : ℚ) * 2 ^ k = 2 ^ (k + 53) := by
      rw [heq]
      push_cast
      rw [show (9007199254740992 : ℚ) = (2 : ℚ) ^ (53 : ℤ) from by norm_num,
        ← zpow_add₀ h2ne]
      congr 1
      ring
    have he : Int.log 2 ((n : ℚ) * 2 ^ k) = k + 53 := by
      rw [hqe]
      exact Int.log_zpow (by norm_num) _
    rw [roundPos]
    simp only [he]
    have hulp : (k + 53) - 52 = k + 1 := by ring
    rw [hulp]
    have hdiv : (n : ℚ) * 2 ^ k / 2 ^ (k + 1) = ((2 ^ 52 : ℤ) : ℚ) := by
      rw [hqe]
      rw [← zpow_sub₀ h2ne]
      have hc : ((2 ^ 52 : ℤ) : ℚ) = (2 : ℚ) ^ (52 : ℤ) := by norm_num
      rw [hc]
      congr 1
      ring
    rw [hdiv, Int.floor_intCast]
    simp only [sub_self]
    norm_num
    rw [show (4503599627370496 : ℚ) = (2 : ℚ) ^ (52 : ℤ) from by norm_num,
      ← zpow_add₀ h2ne, hqe]
    congr 1
    ring

lemma roundPos_pos (q : ℚ) (hq : 0 < q) : 0 < roundPos q := by
  obtain ⟨n, h1, h2, hg⟩ := roundPos_grid q hq
  rw [hg]
  exact mul_pos (by exact_mod_cast lt_of_lt_of_le (by norm_num) h1)
    (zpow_pos (by norm_num) _)

lemma roundPos_fix (q : ℚ) (hq : 0 < q) : roundPos (roundPos q) = roundPos q := by
  obtain ⟨n, h1, h2, hg⟩ := roundPos_grid q hq
  rw [hg]
  exact roundPos_dyadic n _ h1 h2

lemma roundDouble_idem (q : ℚ) : roundDouble (roundDouble q) = roundDouble q := by
  rcases lt_trichotomy q 0 with hneg | hzero | hpos
  · have h1 : roundDouble q = -roundPos (-q) := by
      rw [roundDouble, if_neg (ne_of_lt hneg), if_pos hneg]
    have hp : 0 < roundPos (-q) := roundPos_pos (-q) (by linarith)
    rw [h1, roundDouble, if_neg (by linarith), if_pos (by linarith)]
    rw [neg_neg, roundPos_fix (-q) (by linarith)]
  · rw [hzero]
    rw [show roundDouble 0 = 0 from by rw [roundDouble, if_pos rfl]]
    rw [roundDouble, if_pos rfl]
  · have h1 : roundDouble q = roundPos q := by
      rw [roundDouble, if_neg (ne_of_gt hpos), if_neg (not_lt.mpr (le_of_lt hpos))]
    have hp : 0 < roundPos q := roundPos_pos q hpos
    rw [h1, roundDouble, if_neg (ne_of_gt hp), if_neg (not_lt.mpr (le_of_lt hp))]
    exact roundPos_fix q hpos

lemma roundDouble_zero : roundDouble 0 = 0 := by
  rw [roundDouble, if_pos rfl]

lemma kahanSum_singleton (x : ℚ) (hx : roundDouble x = x) :
    kahanSum [x] = x := by
  rw [kahanSum, List.foldl_cons, List.foldl_nil, kahanStep]
  simp only [sub_zero, zero_add, hx, sub_self, roundDouble_zero]

lemma roundDouble_tenth_ne : roundDouble ((1 : ℚ) / 10) ≠ 1 / 10 := by
  intro hcontra
  have h10 : (0:ℚ) < 1 / 10 := by norm_num
  rw [roundDouble, if_neg (by norm_num), if_neg (by norm_num)] at hcontra
  obtain ⟨n, hn1, hn2, hgrid⟩ := roundPos_grid (1 / 10) h10
  rw [hgrid] at hcontra
  have he : Int.log 2 ((1:ℚ) / 10) ≤ 0 := by
    have hm := Int.log_mono_right (b := 2)
      (show (0:ℚ) < 1 / 10 by norm_num) (show (1:ℚ) / 10 ≤ 1 by norm_num)
    rwa [Int.log_one_right] at hm
  have hPne : ((2:ℚ) ^ (52 - Int.log 2 ((1:ℚ) / 10))) ≠ 0 :=
    ne_of_gt (zpow_pos (by norm_num) _)
  have h2 : (10 * n : ℚ) = 2 ^ (52 - Int.log 2 ((1:ℚ) / 10)) := by
    rw [show Int.log 2 ((1:ℚ) / 10) - 52 = -(52 - Int.log 2 ((1:ℚ) / 10)) from by ring,
      zpow_neg] at hcontra
    field_simp at hcontra
    linarith [hcontra]
  have hm : (52 - Int.log 2 ((1:ℚ) / 10)) = ((52 - Int.log 2 ((1:ℚ) / 10)).toNat : ℤ) :=
    (Int.toNat_of_nonneg (by omega)).symm
  rw [hm, zpow_natCast] at h2
  have h3 : (10 * n : ℤ) = 2 ^ (52 - Int.log 2 ((1:ℚ) / 10)).toNat := by
    exact_mod_cast h2
  have h5 : (5:ℤ) ∣ 2 ^ (52 - Int.log 2 ((1:ℚ) / 10)).toNat := ⟨2 * n, by linarith⟩
  have hp : Prime (5:ℤ) := by norm_num
  have h6 : (5:ℤ) ∣ 2 := hp.dvd_of_dvd_pow h5
  norm_num at h6

/-- C4 counterexample: a swap of raw amount 1 on a 1-decimal token makes
`get_swap_volume_timeseries` emit the binary64 value nearest to 1/10 —
which is not 1/10, the exact contribution the claim asserts. -/
theorem swap_volume_exact_contribution_counterexample :
    ((get_swap_volume_timeseries oracleOne [] dbOneSwap "P" "T0" "T1" 4000 7).1).map
        (fun p => p.token0_volume) ≠ [((1 : ℚ) + 0) / 10 ^ 1] := by
  intro hcontra
  have hq : swapQueryRows dbOneSwap (pyLower "P") (4000 - 7 * 86400) = [swapTiny] := by
    decide
  have hpair : get_swap_volume_timeseries oracleOne [] dbOneSwap "P" "T0" "T1" 4000 7 =
      (if swapQueryRows dbOneSwap (pyLower "P") (4000 - 7 * 86400) = []
       then (([] : List VolPoint), [])
       else
        (groupByHourSum
          ((swapQueryRows dbOneSwap (pyLower "P") (4000 - 7 * 86400)).map
            (fun r =>
              { time := hourBucket r.block_time
                token0_volume := roundDouble (((r.amount0_in : ℚ) + (r.amount0_out : ℚ)) /
                  10 ^ (get_token_decimals oracleOne [] "T0").1)
                token1_volume := roundDouble (((r.amount1_in : ℚ) + (r.amount1_out : ℚ)) /
                  10 ^ (get_token_decimals oracleOne
                    (get_token_decimals oracleOne [] "T0").2 "T1").1) : VolPoint })),
          (get_token_decimals oracleOne
            (get_token_decimals oracleOne [] "T0").2 "T1").2)) := rfl
  rw [hpair, hq, if_neg (show ¬([swapTiny] = []) from by decide)] at hcontra
  have hd0 : get_token_decimals oracleOne [] "T0" = (1, [("T0", 1)]) := rfl
  simp only [hd0, List.map_cons, List.map_nil] at hcontra
  rw [show swapTiny = (⟨"p", "a", "b", 1, 0, 0, 0, "0xk", 1, 3700⟩ : SwapRow) from rfl]
    at hcontra
  simp only [groupByHourSum, hourBucket, List.map_cons, List.map_nil, List.dedup_cons_of_not_mem,
    List.not_mem_nil, not_false_iff, List.dedup_nil, List.insertionSort, List.orderedInsert,
    List.filter, List.cons.injEq, and_true] at hcontra
  norm_num at hcontra
  have hx := kahanSum_singleton (roundDouble (((1:ℚ) + 0) / 10 ^ 1)) (roundDouble_idem _)
  rw [show ((1:ℚ) + 0) / 10 ^ 1 = 1 / 10 from by norm_num] at hx
  exact roundDouble_tenth_ne (hx.symm.trans hcontra)

/-- C4 (amended): each swap in the window contributes the binary64
rounding of `(amount_in + amount_out) / 10^decimals` per token — the exact
rational is generally unrepresentable — to the bucket of its hour-truncated
timestamp; the output has one row per non-empty bucket, sorted ascending by
hour, whose value is the binary64 compensated sum of that bucket's
contributions in query (time) order. -/
theorem swap_volume_hourly_float_sums (oracle : String → Option Nat)
    (cache : List (String × Nat)) (db : DB)
    (pool_address token0_address token1_address : String)
    (now lookback_days : Nat) :
    List.Sorted (fun a b : Nat => a < b)
        (((get_swap_volume_timeseries oracle cache db pool_address token0_address
          token1_address now lookback_days).1).map (fun p => p.time)) ∧
    (∀ k : Nat,
      k ∈ ((get_swap_volume_timeseries oracle cache db pool_address token0_address
          token1_address now lookback_days).1).map (fun p => p.time) ↔
        ∃ r ∈ db.pool_swaps.filter (fun r =>
            r.pool_address = pyLower pool_address &&
              decide (now - lookback_days * 86400 ≤ r.block_time)),
          hourBucket r.block_time = k) ∧
    (∀ i (hi : i < ((get_swap_volume_timeseries oracle cache db pool_address
        token0_address token1_address now lookback_days).1).length),
      (((get_swap_volume_timeseries oracle cache db pool_address token0_address
          token1_address now lookback_days).1).get ⟨i, hi⟩).token0_volume =
        kahanSum (((swapQueryRows db (pyLower pool_address)
            (now - lookback_days * 86400)).filter (fun r =>
            decide (hourBucket r.block_time =
              (((get_swap_volume_timeseries oracle cache db pool_address
                token0_address token1_address now lookback_days).1).get
                  ⟨i, hi⟩).time))).map (fun r =>
            roundDouble (((r.amount0_in : ℚ) + (r.amount0_out : ℚ)) /
              10 ^ (get_token_decimals oracle cache token0_address).1))) ∧
      (((get_swap_volume_timeseries oracle cache db pool_address token0_address
          token1_address now lookback_days).1).get ⟨i, hi⟩).token1_volume =
        kahanSum (((swapQueryRows db (pyLower pool_address)
            (now - lookback_days * 86400)).filter (fun r =>
            decide (hourBucket r.block_time =
              (((get_swap_volume_timeseries oracle cache db pool_address
                token0_address token1_address now lookback_days).1).get
                  ⟨i, hi⟩).time))).map (fun r =>
            roundDouble (((r.amount1_in : ℚ) + (r.amount1_out : ℚ)) /
              10 ^ (get_token_decimals oracle
                (get_token_decimals oracle cache token0_address).2
                token1_address).1)))) ∧
    (∀ t : Nat, hourBucket t ≤ t ∧ t < hourBucket t + 3600 ∧ hourBucket t % 3600 = 0) := by
  have hpair : get_swap_volume_timeseries oracle cache db pool_address token0_address
      token1_address now lookback_days =
      (if swapQueryRows db (pyLower pool_address) (now - lookback_days * 86400) = []
       then (([] : List VolPoint), cache)
       else
        (groupByHourSum
          ((swapQueryRows db (pyLower pool_address) (now - lookback_days * 86400)).map
            (fun r =>
              { time := hourBucket r.block_time
                token0_volume := roundDouble (((r.amount0_in : ℚ) + (r.amount0_out : ℚ)) /
                  10 ^ (get_token_decimals oracle cache token0_address).1)
                token1_volume := roundDouble (((r.amount1_in : ℚ) + (r.amount1_out : ℚ)) /
                  10 ^ (get_token_decimals oracle
                    (get_token_decimals oracle cache token0_address).2
                    token1_address).1) : VolPoint })),
          (get_token_decimals oracle
            (get_token_decimals oracle cache token0_address).2 token1_address).2)) := rfl
  have hq : (swapQueryRows db (pyLower pool_address) (now - lookback_days * 86400)).Perm
      (db.pool_swaps.filter (fun r =>
        r.pool_address = pyLower pool_address &&
          decide (now - lookback_days * 86400 ≤ r.block_time))) :=
    List.perm_insertionSort _ _
  have hhb : ∀ t : Nat, hourBucket t ≤ t ∧ t < hourBucket t + 3600 ∧
      hourBucket t % 3600 = 0 := by
    intro t
    have h1 : t % 3600 < 3600 := Nat.mod_lt t (by omega)
    have h2 : t % 3600 ≤ t := Nat.mod_le t 3600
    refine ⟨?_, ?_, ?_⟩ <;> (simp only [hourBucket]; omega)
  by_cases hnil : swapQueryRows db (pyLower pool_address)
      (now - lookback_days * 86400) = []
  · have hS : db.pool_swaps.filter (fun r =>
        r.pool_address = pyLower pool_address &&
          decide (now - lookback_days * 86400 ≤ r.block_time)) = [] := by
      rw [hnil] at hq
      exact hq.symm.eq_nil
    have hout : (get_swap_volume_timeseries oracle cache db pool_address
        token0_address token1_address now lookback_days).1 = [] := by
      rw [hpair, if_pos hnil]
    refine ⟨?_, ?_, ?_, hhb⟩
    · rw [hout]; simp
    · intro k
      rw [hout, hS]
      simp
    · intro i hi
      rw [hout] at hi
      simp at hi
  · have hout : (get_swap_volume_timeseries oracle cache db pool_address
        token0_address token1_address now lookback_days).1 =
        groupByHourSum
          ((swapQueryRows db (pyLower pool_address) (now - lookback_days * 86400)).map
            (fun r =>
              { time := hourBucket r.block_time
                token0_volume := roundDouble (((r.amount0_in : ℚ) + (r.amount0_out : ℚ)) /
                  10 ^ (get_token_decimals oracle cache token0_address).1)
                token1_volume := roundDouble (((r.amount1_in : ℚ) + (r.amount1_out : ℚ)) /
                  10 ^ (get_token_decimals oracle
                    (get_token_decimals oracle cache token0_address).2
                    token1_address).1) : VolPoint })) := by
      rw [hpair, if_neg hnil]
    refine ⟨?_, ?_, ?_, hhb⟩
    · rw [hout]
      exact groupByHourSum_sorted _
    · intro k
      rw [hout, groupByHourSum_mem]
      simp only [List.mem_map]
      constructor
      · rintro ⟨rec, ⟨r, hr, rfl⟩, htime⟩
        exact ⟨r, hq.mem_iff.mp hr, htime⟩
      · rintro ⟨r, hr, hb⟩
        exact ⟨_, ⟨r, hq.mem_iff.mpr hr, rfl⟩, hb⟩
    · intro i hi
      obtain ⟨p, hpq, hpget⟩ :
          ∃ p, (get_swap_volume_timeseries oracle cache db pool_address
              token0_address token1_address now lookback_days).1[i]? = some p ∧
            (get_swap_volume_timeseries oracle cache db pool_address
              token0_address token1_address now lookback_days).1.get ⟨i, hi⟩ = p := by
        refine ⟨_, ?_, rfl⟩
        rw [List.get_eq_getElem]
        exact List.getElem?_eq_getElem hi
      rw [hout] at hpq
      obtain ⟨g0, g1⟩ := groupByHourSum_read _ i p hpq
      rw [hpget]
      constructor
      · refine g0.trans ?_
        refine congrArg kahanSum ?_
        rw [List.filter_map, List.map_map]
        rfl
      · refine g1.trans ?_
        refine congrArg kahanSum ?_
        rw [List.filter_map, List.map_map]
        rfl

theorem swap_volume_hourly_float_sums_witness :
    (0 : Nat) < ((get_swap_volume_timeseries oracleT0 [] dbSwapScenario
        "P" "T0" "T1" 4000 7).1).length ∧
    ((((get_swap_volume_timeseries oracleT0 [] dbSwapScenario
        "P" "T0" "T1" 4000 7).1).get ⟨0, by decide⟩).token0_volume =
      kahanSum (((swapQueryRows dbSwapScenario (pyLower "P")
          (4000 - 7 * 86400)).filter (fun r =>
          decide (hourBucket r.block_time =
            (((get_swap_volume_timeseries oracleT0 [] dbSwapScenario
              "P" "T0" "T1" 4000 7).1).get ⟨0, by decide⟩).time))).map (fun r =>
          roundDouble (((r.amount0_in : ℚ) + (r.amount0_out : ℚ)) /
            10 ^ (get_token_decimals oracleT0 [] "T0").1)))) :=
  ⟨by decide,
    ((swap_volume_hourly_float_sums oracleT0 [] dbSwapScenario
      "P" "T0" "T1" 4000 7).2.2.1 0 (by decide)).1⟩
